import Mathlib

/-!
Verification of the moxy mock/mutation engine (moxy.py).

The engine's data is JSON loaded from configuration files, modelled by the
inductive type `J` below.  Python dictionaries are modelled as ordered
association lists (`Obj`), matching Python 3.7+ insertion-order semantics:
assigning an existing key updates it in place, a new key is appended at the
end.  Python `None` and JSON `null` are the same value (`J.null`), exactly as
in the source where `json.load` maps `null` to `None`.

External collaborators (the regex engine, the JSON text parser and the file
system) are passed in as the `Ext` structure of oracle functions, mirroring
the spec's scoping which treats regex compilation, JSON parsing and file I/O
as external.  Code paths on which Python raises an exception are modelled by
`Option` results (`none` = the call raises).
-/

namespace Moxy

/-- JSON values as produced by `json.load` in the source: `null` is Python
`None`, objects preserve insertion order. Numbers are modelled as integers
(the engine never computes with numbers, it only compares and stringifies
them). -/
inductive J where
  | null : J
  | bool : Bool → J
  | num : Int → J
  | str : String → J
  | arr : List J → J
  | obj : List (String × J) → J
deriving Repr

/-- A Python dictionary with string keys, in insertion order. -/
abbrev Obj := List (String × J)

mutual
/-- Structural equality test on JSON values. -/
def beqJ : J → J → Bool
  | .null, .null => true
  | .bool a, .bool b => a == b
  | .num a, .num b => a == b
  | .str a, .str b => a == b
  | .arr a, .arr b => beqL a b
  | .obj a, .obj b => beqO a b
  | _, _ => false

/-- Structural equality test on lists of JSON values. -/
def beqL : List J → List J → Bool
  | [], [] => true
  | a :: as_, b :: bs => beqJ a b && beqL as_ bs
  | _, _ => false

/-- Structural equality test on dict entry lists. -/
def beqO : List (String × J) → List (String × J) → Bool
  | [], [] => true
  | (k, v) :: as_, (k2, v2) :: bs => k == k2 && beqJ v v2 && beqO as_ bs
  | _, _ => false
end

mutual
/-- `beqJ` decides equality of JSON values. -/
theorem beqJ_iff : ∀ (a b : J), beqJ a b = true ↔ a = b
  | .null, .null => by simp [beqJ]
  | .bool a, .bool b => by simp [beqJ]
  | .num a, .num b => by simp [beqJ]
  | .str a, .str b => by simp [beqJ]
  | .arr a, .arr b => by simp [beqJ, beqL_iff a b]
  | .obj a, .obj b => by simp [beqJ, beqO_iff a b]
  | .null, .bool _ | .null, .num _ | .null, .str _ | .null, .arr _ | .null, .obj _
  | .bool _, .null | .bool _, .num _ | .bool _, .str _ | .bool _, .arr _ | .bool _, .obj _
  | .num _, .null | .num _, .bool _ | .num _, .str _ | .num _, .arr _ | .num _, .obj _
  | .str _, .null | .str _, .bool _ | .str _, .num _ | .str _, .arr _ | .str _, .obj _
  | .arr _, .null | .arr _, .bool _ | .arr _, .num _ | .arr _, .str _ | .arr _, .obj _
  | .obj _, .null | .obj _, .bool _ | .obj _, .num _ | .obj _, .str _ | .obj _, .arr _ => by
    simp [beqJ]

/-- `beqL` decides equality of lists of JSON values. -/
theorem beqL_iff : ∀ (a b : List J), beqL a b = true ↔ a = b
  | [], [] => by simp [beqL]
  | [], _ :: _ => by simp [beqL]
  | _ :: _, [] => by simp [beqL]
  | a :: as_, b :: bs => by simp [beqL, beqJ_iff a b, beqL_iff as_ bs]

/-- `beqO` decides equality of dict entry lists. -/
theorem beqO_iff : ∀ (a b : List (String × J)), beqO a b = true ↔ a = b
  | [], [] => by simp [beqO]
  | [], _ :: _ => by simp [beqO]
  | _ :: _, [] => by simp [beqO]
  | (k, v) :: as_, (k2, v2) :: bs => by
    simp [beqO, beqJ_iff v v2, beqO_iff as_ bs, Prod.ext_iff, and_assoc]
end

instance : DecidableEq J := fun a b => decidable_of_iff (beqJ a b = true) (beqJ_iff a b)

/-- Python truthiness of a JSON value (`bool(x)`). -/
def truthy : J → Bool
  | .null => false
  | .bool b => b
  | .num n => n != 0
  | .str s => s != ""
  | .arr l => !l.isEmpty
  | .obj l => !l.isEmpty

/-- Dictionary lookup `d.get(k)` (first occurrence; dictionaries have no
duplicate keys). -/
def alget (d : Obj) (k : String) : Option J :=
  (d.find? (fun e => e.1 == k)).map (fun e => e.2)

/-- Dictionary assignment `d[k] = v`: replaces the value in place if the key
exists, otherwise appends (Python 3.7+ insertion-order semantics). -/
def alset (d : Obj) (k : String) (v : J) : Obj :=
  match d with
  | [] => [(k, v)]
  | e :: rest => if e.1 = k then (k, v) :: rest else e :: alset rest k v

/-- `d.pop(k, None)`: the removed value (if any) and the remaining dict. -/
def popKey (d : Obj) (k : String) : Option J × Obj :=
  match d with
  | [] => (none, [])
  | e :: rest =>
    if e.1 = k then (some e.2, rest)
    else
      let r := popKey rest k
      (r.1, e :: r.2)

/-- `d.update(e)` for dictionaries: assign each entry of `e` in order. -/
def objUpdate (d : Obj) (e : Obj) : Obj :=
  e.foldl (fun acc kv => alset acc kv.1 kv.2) d

/-- `d.update(v)` for an arbitrary value `v`: dictionaries update key-wise,
the empty string and the empty list are empty iterables (no-op), and any
other non-dict argument raises `TypeError`/`ValueError` (modelled `none`). -/
def updErr (d : Obj) (v : J) : Option Obj :=
  match v with
  | .obj e => some (objUpdate d e)
  | .str "" => some d
  | .arr [] => some d
  | _ => none

/-- Lookup in a Python dict keyed by arbitrary (hashable) values, used for
the engine's `hit_count`, `cycle_index` and `mock_state` stores. -/
def jget {α : Type} (d : List (J × α)) (k : J) : Option α :=
  (d.find? (fun e => e.1 == k)).map (fun e => e.2)

/-- Assignment in a Python dict keyed by arbitrary values. -/
def jset {α : Type} (d : List (J × α)) (k : J) (v : α) : List (J × α) :=
  match d with
  | [] => [(k, v)]
  | e :: rest => if e.1 = k then (k, v) :: rest else e :: jset rest k v

/-- Whether `p` is a leading segment of `l`. -/
def leadsList (p l : List Char) : Bool :=
  match p, l with
  | [], _ => true
  | _, [] => false
  | a :: as_, b :: bs => a == b && leadsList as_ bs

/-- Whether `p` occurs as a contiguous segment of `l` (Python `in` on
strings). -/
def infixList (p : List Char) (l : List Char) : Bool :=
  match l with
  | [] => leadsList p []
  | _ :: rest => leadsList p l || infixList p rest

/-- Python substring containment `needle in hay`. -/
def strContains (hay needle : String) : Bool :=
  infixList needle.toList hay.toList

/-- Python `s.startswith(p)` (character-list based, so that concrete
evaluations reduce). -/
def pyStartsWith (s p : String) : Bool :=
  leadsList p.toList s.toList

/-- Splitting a character list on a delimiter character, Python
`str.split(delim)` for a one-character delimiter. -/
def splitChars (delim : Char) : List Char → List (List Char)
  | [] => [[]]
  | c :: rest =>
    let r := splitChars delim rest
    if c == delim then [] :: r
    else (c :: r.headD []) :: r.tail

/-- `path.split("?")[0]`: the request path with the query string stripped. -/
def stripQuery (s : String) : String :=
  String.mk (s.toList.takeWhile (fun c => !(c == '?')))

mutual
/-- Python `==` on JSON values: dictionaries compare by content rather than
order, and `True == 1`, `False == 0` across bool/int. -/
def pyEq : J → J → Bool
  | .null, .null => true
  | .bool a, .bool b => a == b
  | .num a, .num b => a == b
  | .bool a, .num b => (if a then (1 : Int) else 0) == b
  | .num a, .bool b => a == (if b then (1 : Int) else 0)
  | .str a, .str b => a == b
  | .arr a, .arr b => pyEqList a b
  | .obj a, .obj b => pyEqObj a b && pyEqObjKeys b a
  | _, _ => false

/-- Python `==` on lists: pointwise. -/
def pyEqList : List J → List J → Bool
  | [], [] => true
  | a :: as_, b :: bs => pyEq a b && pyEqList as_ bs
  | _, _ => false

/-- One direction of Python dict equality: every entry of `a` is matched in
`b`. -/
def pyEqObj : List (String × J) → List (String × J) → Bool
  | [], _ => true
  | (k, v) :: rest, b =>
    (match alget b k with
     | some w => pyEq v w
     | none => false) && pyEqObj rest b

/-- The other direction of Python dict equality: every key of `b` occurs in
`a`. -/
def pyEqObjKeys : List (String × J) → List (String × J) → Bool
  | [], _ => true
  | (k, _) :: rest, a => (alget a k).isSome && pyEqObjKeys rest a
end

/-- A single quote character, used by the Python `repr` rendering. -/
def sq : String := String.singleton (Char.ofNat 39)

mutual
/-- Python `repr` of a JSON value (used when values are nested inside a
stringified container). String escaping is not reproduced; the engine only
ever feeds these strings to substring and regex matching. -/
def pyRepr : J → String
  | .null => "None"
  | .bool true => "True"
  | .bool false => "False"
  | .num n => toString n
  | .str s => sq ++ s ++ sq
  | .arr l => "[" ++ pyReprList l ++ "]"
  | .obj l => "\x7b" ++ pyReprObj l ++ "\x7d"

/-- Comma-separated `repr` of list elements. -/
def pyReprList : List J → String
  | [] => ""
  | [a] => pyRepr a
  | a :: rest => pyRepr a ++ ", " ++ pyReprList rest

/-- Comma-separated `repr` of dict entries. -/
def pyReprObj : List (String × J) → String
  | [] => ""
  | [(k, v)] => sq ++ k ++ sq ++ ": " ++ pyRepr v
  | (k, v) :: rest => sq ++ k ++ sq ++ ": " ++ pyRepr v ++ ", " ++ pyReprObj rest
end

/-- Python `str` of a JSON value: the identity on strings, `repr`-style for
containers. -/
def pyStr : J → String
  | .str s => s
  | v => pyRepr v

mutual
/-- `json.dumps` of a JSON value (default separators). String escaping is
not reproduced. -/
def pyJsonDumps : J → String
  | .null => "null"
  | .bool true => "true"
  | .bool false => "false"
  | .num n => toString n
  | .str s => "\"" ++ s ++ "\""
  | .arr l => "[" ++ pyJsonDumpsList l ++ "]"
  | .obj l => "\x7b" ++ pyJsonDumpsObj l ++ "\x7d"

/-- Comma-separated JSON rendering of list elements. -/
def pyJsonDumpsList : List J → String
  | [] => ""
  | [a] => pyJsonDumps a
  | a :: rest => pyJsonDumps a ++ ", " ++ pyJsonDumpsList rest

/-- Comma-separated JSON rendering of dict entries. -/
def pyJsonDumpsObj : List (String × J) → String
  | [] => ""
  | [(k, v)] => "\"" ++ k ++ "\": " ++ pyJsonDumps v
  | (k, v) :: rest => "\"" ++ k ++ "\": " ++ pyJsonDumps v ++ ", " ++ pyJsonDumpsObj rest
end

/-- External collaborators of the engine, per the spec: the regex engine
(`search` and `sub`), the JSON text parser, and the file system used by
`resolve_value` (a file name maps to its parsed JSON contents, `none` when
the file is missing or unparsable). -/
structure Ext where
  reSearch : String → String → Bool
  reSub : String → String → String → String
  jsonParse : String → Option J
  fs : String → Option J

end Moxy

namespace Moxy

/-- Whether a string triggers file resolution in `resolve_value`: it begins
with a dot and ends in `.json` or `.js`. -/
def fileRef (s : String) : Bool :=
  pyStartsWith s "." && (s.endsWith ".json" || s.endsWith ".js")

/-- `resolve_value`: strings that name a `.json`/`.js` file beginning with a
dot are replaced by the parsed file contents; a failed load silently keeps
the original string. -/
def resolve_value (ext : Ext) (v : J) : J :=
  match v with
  | .str s => if fileRef s then (ext.fs s).getD v else v
  | _ => v

mutual
/-- `is_subset(subset, superset)`: structural containment with tilde escapes.
All exceptions from incompatible types are caught and yield `False`, which
the match arms below reproduce case by case. -/
def is_subset (ext : Ext) (sub sup : J) : Bool :=
  match sub with
  | .obj s =>
    if s.isEmpty then true
    else
      match sup with
      | .obj o => isSubEntries ext s o
      | _ => false
  | .arr s =>
    if s.isEmpty then true
    else
      match sup with
      | .arr l => isSubItems ext s l
      | .str t => isSubItems ext s (t.toList.map (fun c => J.str (String.singleton c)))
      | .obj o => isSubItems ext s (o.map (fun e => J.str e.1))
      | _ => false
  | .str s =>
    if s = "~" then true
    else if pyStartsWith s "~" then ext.reSearch (s.drop 1) (pyStr sup)
    else pyStr sup == s
  | _ => pyEq sub sup
termination_by (sizeOf sub, 0)

/-- Conjunction over the entries of a dict `subset`. -/
def isSubEntries (ext : Ext) (s : List (String × J)) (o : List (String × J)) : Bool :=
  match s with
  | [] => true
  | (k, v) :: rest =>
    (match alget o k with
     | some w => is_subset ext v w
     | none => false) && isSubEntries ext rest o
termination_by (sizeOf s, 0)

/-- Conjunction over the items of a list `subset`. -/
def isSubItems (ext : Ext) (s : List J) (l : List J) : Bool :=
  match s with
  | [] => true
  | it :: rest => isSubAny ext it l && isSubItems ext rest l
termination_by (sizeOf s, 0)

/-- Disjunction over candidate superset items for one subset item. -/
def isSubAny (ext : Ext) (it : J) (l : List J) : Bool :=
  match l with
  | [] => false
  | x :: xs => is_subset ext it x || isSubAny ext it xs
termination_by (sizeOf it, sizeOf l + 1)
end

/-- `content_as_str`: identity on strings, empty for `None`, JSON text
otherwise. -/
def content_as_str : J → String
  | .str s => s
  | .null => ""
  | v => pyJsonDumps v

/-- `content_as_object`: parse strings as JSON (failures and `None` yield an
empty dict, matching the caught exception in the source). -/
def content_as_object (ext : Ext) : J → J
  | .str s => (ext.jsonParse s).getD (.obj [])
  | .null => .obj []
  | v => v

/-- `replace_in_content(replace, content)`: dict update or sed-style regex
substitution.  `none` models the uncaught exceptions of the source (too few
fields in a list form, or a non-string pattern or replacement). -/
def replace_in_content (ext : Ext) (replace content : J) : Option J :=
  match replace with
  | .obj r =>
    let c0 := content_as_object ext content
    let c1 := if truthy c0 then c0 else .obj []
    match c1 with
    | .obj kvs => some (.obj (objUpdate kvs r))
    | _ => some (.obj r)
  | _ =>
    if !truthy replace then some content
    else
      let fields : Option (Option (String × String)) :=
        match replace with
        | .str s =>
          match (splitChars (s.toList.headD ' ') (s.toList.drop 1)).map String.mk with
          | [a, b] => some (some (a, b))
          | _ => none
        | .arr ((.str a) :: (.str b) :: _) => some (some (a, b))
        | _ => some none
      match fields with
      | none => some replace
      | some none => none
      | some (some (pat, rep)) =>
        let contentIsStr := match content with | .str _ => true | _ => false
        let subbed := ext.reSub pat rep (content_as_str content)
        if contentIsStr then some (.str subbed)
        else some (content_as_object ext (.str subbed))

mutual
/-- `delete_content(delete, content)`: recursive deletion.  A dict `delete`
against non-dict content raises in the source (`none` here); a list `delete`
filters list content by `is_subset` when non-empty, and otherwise empties
the content; any other `delete` falls through both branches and returns the
content unchanged. -/
def delete_content (ext : Ext) (del content : J) : Option J :=
  match del with
  | .obj d =>
    if d.isEmpty then some content
    else
      match content with
      | .obj c => (delEntries ext d c).map J.obj
      | _ => none
  | .arr d =>
    if d.isEmpty then some (.arr [])
    else
      match content with
      | .arr l => some (.arr (d.foldl (fun acc dl => acc.filter (fun x => !is_subset ext dl x)) l))
      | _ => some (.arr [])
  | _ => some content
termination_by sizeOf del

/-- Iteration over the keys of a dict `delete` against dict content. -/
def delEntries (ext : Ext) (d : List (String × J)) (c : Obj) : Option Obj :=
  match d with
  | [] => some c
  | (k, v) :: rest =>
    let step : Option Obj :=
      match v with
      | .obj dv =>
        if dv.isEmpty then some (popKey c k).2
        else
          match alget c k with
          | some (.obj cv) => (delete_content ext (.obj dv) (.obj cv)).map (fun nc => alset c k nc)
          | _ => some c
      | .arr dv =>
        if dv.isEmpty then some (popKey c k).2
        else
          match alget c k with
          | some (.arr cv) => (delete_content ext (.arr dv) (.arr cv)).map (fun nc => alset c k nc)
          | _ => some c
      | _ =>
        if !truthy v || pyEq ((alget c k).getD .null) v then some (popKey c k).2
        else some c
    step.bind (fun c2 => delEntries ext rest c2)
termination_by sizeOf d
end

/-- Insertion at an index, `list.insert(i, x)` in Python. -/
def insAt (l : List J) (i : Nat) (x : J) : List J :=
  l.take i ++ x :: l.drop i

/-- Deletion at an index, `del list[i]` in Python. -/
def delAt (l : List J) (i : Nat) : List J :=
  l.take i ++ l.drop (i + 1)

mutual
/-- `merge_content(merge, content)`: recursive merge of JSON trees.  The
`fuel` argument bounds the depth of the call tree (the source can both
recurse and, for pathological `insert` rules, loop without bound); it is
checked and decremented at every call, and exhausting it yields `none`. -/
def merge_content (ext : Ext) : Nat → J → J → Option J
  | 0, _, _ => none
  | f + 1, mg0, content =>
    let mg := resolve_value ext mg0
    match mg with
    | .obj m =>
      if m.length == 1 && (alget m "replace_with").isSome then
        some (resolve_value ext ((alget m "replace_with").getD .null))
      else if m.length == 1 && (alget m "replace_in").isSome then
        replace_in_content ext ((alget m "replace_in").getD .null) content
      else
        match content with
        | .obj c => (mergeEntries ext f m c).map J.obj
        | .arr l =>
          if (alget m "where").isSome then
            (whereLoop ext f m l 0 l.length).map J.arr
          else (mergeRebuild ext f m []).map J.obj
        | _ => (mergeRebuild ext f m []).map J.obj
    | .arr ml =>
      let ml := ml.map (resolve_value ext)
      let base : List J :=
        match content with
        | .null => []
        | .arr c => c
        | other => [other]
      (appendEach ext f ml base).map J.arr
    | other => some other

/-- The key-wise merge loop for dict content. -/
def mergeEntries (ext : Ext) : Nat → List (String × J) → Obj → Option Obj
  | 0, _, _ => none
  | _ + 1, [], c => some c
  | f + 1, (k, v) :: rest, c =>
    (merge_content ext f v ((alget c k).getD .null)).bind
      (fun nv => mergeEntries ext f rest (alset c k nv))

/-- Rebuilding a fresh dict from `merge` when the content is not
mergeable. -/
def mergeRebuild (ext : Ext) : Nat → List (String × J) → Obj → Option Obj
  | 0, _, _ => none
  | _ + 1, [], acc => some acc
  | f + 1, (k, v) :: rest, acc =>
    (merge_content ext f v .null).bind
      (fun nv => mergeRebuild ext f rest (alset acc k nv))

/-- Appending each element of a list `merge` onto list content. -/
def appendEach (ext : Ext) : Nat → List J → List J → Option (List J)
  | 0, _, _ => none
  | _ + 1, [], base => some base
  | f + 1, e :: rest, base =>
    (merge_content ext f e .null).bind
      (fun nv => appendEach ext f rest (base ++ [nv]))

/-- The `where` loop of `merge_content` over list content, with the index
arithmetic of the source reproduced verbatim. -/
def whereLoop (ext : Ext) : Nat → Obj → List J → Nat → Nat → Option (List J)
  | 0, _, _, _, _ => none
  | f + 1, m, content, index, endIndex =>
    if index < endIndex then
      match content[index]? with
      | none => none
      | some element =>
        let whereV := (alget m "where").getD .null
        let matchCond := !truthy ((alget m "negated").getD (.bool false))
        if is_subset ext whereV element == matchCond then
          (if (alget m "replace").isSome then merge_content ext f ((alget m "replace").getD .null) .null
           else if (alget m "content").isSome then merge_content ext f ((alget m "content").getD .null) .null
           else some element).bind fun ne1 =>
          (if (alget m "merge").isSome then
             merge_content ext f ((alget m "merge").getD .null) (if truthy ne1 then ne1 else .obj [])
           else if truthy ((alget m "delete").getD .null) then some .null
           else some ne1).bind fun ne =>
          let mv := (alget m "move").getD .null
          let ins := (alget m "insert").getD .null
          let next : List J × Nat × Nat :=
            if ne = .null then (delAt content index, index, endIndex - 1)
            else if truthy mv then
              if mv = .str "head" || mv = .str "first" then
                (insAt (delAt content index) 0 ne, index + 1, endIndex)
              else (delAt content index ++ [ne], index, endIndex - 1)
            else if truthy ins then
              if ins = .str "before" then (insAt content index ne, index + 1, endIndex + 1)
              else (insAt content (index + 1) ne, index + 1, endIndex + 1)
            else (content.set index ne, index + 1, endIndex)
          if !truthy ((alget m "forall").getD (.bool true)) then some next.1
          else whereLoop ext f m next.1 next.2.1 next.2.2
        else whereLoop ext f m content (index + 1) endIndex
    else some content
end

mutual
/-- `host_matches(host, allow)`: dotted suffix and leading-dot patterns,
tilde regex, truthy dict membership, `None` matches everything, lists are
disjunctions.  Iterating a number or boolean raises (`none`). -/
def host_matches (ext : Ext) (host : String) (allow : J) : Option Bool :=
  match allow with
  | .str a =>
    if pyStartsWith a "." then some (host.endsWith (a.drop 1))
    else if a.endsWith "." then some (pyStartsWith host a)
    else if pyStartsWith a "~" then some (ext.reSearch (a.drop 1) host)
    else some (host == a)
  | .obj o => some (truthy ((alget o host).getD (.bool false)))
  | .null => some true
  | .arr l => hostAny ext host l
  | _ => none
termination_by (sizeOf allow, 0)

/-- Disjunction of `host_matches` over a list of patterns. -/
def hostAny (ext : Ext) (host : String) (l : List J) : Option Bool :=
  match l with
  | [] => some false
  | a :: rest =>
    (host_matches ext host a).bind (fun b => if b then some true else hostAny ext host rest)
termination_by (sizeOf l, 1)
end

/-- Whether two JSON values have the same Python dynamic type. -/
def sameJType : J → J → Bool
  | .null, .null => true
  | .bool _, .bool _ => true
  | .num _, .num _ => true
  | .str _, .str _ => true
  | .arr _, .arr _ => true
  | .obj _, .obj _ => true
  | _, _ => false

mutual
/-- `matches_value_or_list(value, allow)`: same-type comparison with the
tilde-regex escape for strings, truthy dict membership, string coercion,
or any-of over a list.  Iterating a non-iterable `allow` raises (`none`). -/
def matches_value_or_list (ext : Ext) (value allow : J) : Option Bool :=
  if sameJType value allow then
    match value, allow with
    | .str v, .str a =>
      if pyStartsWith a "~" then some ((v == a) || ext.reSearch (a.drop 1) v)
      else some (v == a)
    | _, _ => some (pyEq value allow)
  else
    match allow with
    | .obj o =>
      match value with
      | .obj _ | .arr _ => none
      | .str s => some (truthy ((alget o s).getD (.bool false)))
      | _ => some false
    | .str a => some (a == pyStr value)
    | .arr l => mvlAny ext value l
    | _ => none
termination_by (sizeOf allow, 0)

/-- Disjunction of `matches_value_or_list` over the elements of `allow`. -/
def mvlAny (ext : Ext) (value : J) (l : List J) : Option Bool :=
  match l with
  | [] => some false
  | a :: rest =>
    (matches_value_or_list ext value a).bind
      (fun b => if b then some true else mvlAny ext value rest)
termination_by (sizeOf l, 1)
end

mutual
/-- One element of a `content_matches` allow-list.  Returns the verdict and
the (possibly lazily materialised) string and object views of the content.
The per-element `try` of the source turns every error into `False`. -/
def cmOne (ext : Ext) (cs : Option String) (co : J) (allowed : J) : Bool × Option String × J :=
  match allowed with
  | .str a =>
    let s :=
      match cs with
      | some s => s
      | none =>
        let t := content_as_str co
        if t != "" then t else pyStr co
    let ok :=
      if pyStartsWith a "~" then ext.reSearch (a.drop 1) s
      else strContains s a
    (ok, some s, co)
  | .obj o =>
    let co2 :=
      if co = .null then
        let p := content_as_object ext (match cs with | some s => .str s | none => .null)
        if truthy p then p else .obj []
      else co
    (is_subset ext (.obj o) co2, cs, co2)
  | .arr l =>
    match cmAll ext cs co l with
    | some b => (b, cs, co)
    | none => (false, cs, co)
  | _ => (false, cs, co)
termination_by (sizeOf allowed, 0)

/-- Conjunction over a `content_matches` allow-list, threading the string
and object views of the content through the loop. -/
def cmAll (ext : Ext) (cs : Option String) (co : J) (l : List J) : Option Bool :=
  match l with
  | [] => some true
  | a :: rest =>
    let r := cmOne ext cs co a
    if r.1 then cmAll ext r.2.1 r.2.2 rest else some false
termination_by (sizeOf l, 1)
end

/-- `content_matches(content_str, allow, content_object)`: every element of
the allow-list must match.  Iterating a non-iterable `allow` raises
(`none`). -/
def content_matches (ext : Ext) (cs : Option String) (allow : J) (co : J) : Option Bool :=
  match allow with
  | .str _ | .obj _ => some (cmOne ext cs co allow).1
  | .arr l => cmAll ext cs co l
  | _ => none


/-- An HTTP request as consumed from the host proxy: `path` is the full path
including the query string, `query` an ordered multi-map (lookup returns the
first value), `text` the body (absent for body-less requests). -/
structure Request where
  host : String
  scheme : String
  method : String
  path : String
  query : List (String × String)
  text : Option String

/-- `mock_state.get(v, "")`: the stored value of a variable, defaulting to
the empty string. -/
def msGet (ms : List (J × J)) (v : J) : J :=
  (jget ms v).getD (.str "")

/-- The `query` predicate loop: every required key must exist in the request
query and its (first) value must match. -/
def queryAll (ext : Ext) (q : List (String × String)) (req : List (String × J)) : Option Bool :=
  match req with
  | [] => some true
  | (k, v) :: rest =>
    match q.find? (fun e => e.1 == k) with
    | none => some false
    | some e =>
      (matches_value_or_list ext (.str e.2) v).bind
        (fun b => if b then queryAll ext q rest else some false)

/-- The dict form of the `require` predicate: every variable's stored value
(default empty string) must match. -/
def requireAll (ext : Ext) (ms : List (J × J)) (req : List (String × J)) : Option Bool :=
  match req with
  | [] => some true
  | (k, v) :: rest =>
    (matches_value_or_list ext (msGet ms (.str k)) v).bind
      (fun b => if b then requireAll ext ms rest else some false)

/-- `request_matches_config(request, config)`: the conjunction of the
`host`, `scheme`, `method`, `path`, `query`, `request` and `require`
predicates, each defaulting to a match when absent; the empty config returns
`False` up front.  `host` and `scheme` fall back to the top-level defaults
in `mock_config`.  `none` models an uncaught predicate-evaluation error. -/
def request_matches_config (ext : Ext) (mock_config : Obj) (ms : List (J × J)) (req : Request) (config : Obj) : Option Bool :=
  if config.isEmpty then some false
  else
    let host_whitelist := (alget config "host").getD ((alget mock_config "host").getD .null)
    (host_matches ext req.host host_whitelist).bind fun hOk =>
    if !hOk then some false else
    let required_scheme := (alget config "scheme").getD ((alget mock_config "scheme").getD .null)
    (if truthy required_scheme then matches_value_or_list ext (.str req.scheme) required_scheme
     else some true).bind fun sOk =>
    if !sOk then some false else
    let required_method := (alget config "method").getD .null
    (if truthy required_method then matches_value_or_list ext (.str req.method) required_method
     else some true).bind fun mOk =>
    if !mOk then some false else
    let required_path := (alget config "path").getD .null
    (if truthy required_path then matches_value_or_list ext (.str req.path) required_path
     else some true).bind fun pOk =>
    if !pOk then some false else
    let required_query := (alget config "query").getD .null
    (if truthy required_query then
       match required_query with
       | .obj kvs => queryAll ext req.query kvs
       | _ => none
     else some true).bind fun qOk =>
    if !qOk then some false else
    let required_content := (alget config "request").getD .null
    (if truthy required_content then content_matches ext req.text required_content .null
     else some true).bind fun cOk =>
    if !cOk then some false else
    let required_state := (alget config "require").getD .null
    (if truthy required_state then
       match required_state with
       | .obj kvs => requireAll ext ms kvs
       | _ =>
         let varKey := (alget config "variable").getD (.str (stripQuery req.path))
         match varKey with
         | .obj _ => none
         | .arr _ => none
         | _ => matches_value_or_list ext (msGet ms varKey) required_state
     else some true).bind fun rOk =>
    if !rOk then some false else some true

/-- The engine's per-run mutable state: hit counters, cycle indices and the
named-variable store.  Keys are the Python dict keys used by the source
(strings in practice, but any hashable value can arise from `id`,
`cycle-id` or `variable` fields). -/
structure MState where
  hit_count : List (J × Int)
  cycle_index : List (J × Int)
  mock_state : List (J × J)
deriving Repr, DecidableEq

/-- `count_based_config(path, count_config)`: increments the hit counter for
the count-id (the `id` field, default the path) and layers `*`, `even`/`odd`
by the parity of the new count, the exact stringified count, and `~` as the
fallback when no exact key exists.  Returns the layered dict and the updated
counters; `none` models a raising update (non-dict layer) or an unhashable
count-id. -/
def count_based_config (path : String) (cc : J) (hit : List (J × Int)) : Option (Obj × List (J × Int)) :=
  if !truthy cc then some ([], hit)
  else
    match cc with
    | .obj c =>
      let countId := (alget c "id").getD (.str path)
      match countId with
      | .obj _ => none
      | .arr _ => none
      | _ =>
        let count := (jget hit countId).getD 0 + 1
        let hit2 := jset hit countId count
        (updErr [] ((alget c "*").getD (.obj []))).bind fun r1 =>
        (updErr r1 ((alget c (if count % 2 == 0 then "even" else "odd")).getD (.obj []))).bind fun r2 =>
        let spec0 : Option J :=
          match alget c (toString count) with
          | some .null => none
          | some v => some v
          | none => none
        let spec1 : J :=
          match spec0 with
          | some v => v
          | none => (alget c "~").getD (.obj [])
        (updErr r2 (if truthy spec1 then spec1 else .obj [])).map (fun r3 => (r3, hit2))
    | _ => none

/-- `state_based_config(variable, state_config)`: layers `*`, then the
branch keyed by the variable's stored value (default the empty string), or
`~` when no exact branch exists. -/
def state_based_config (varKey : J) (payload : Obj) (ms : List (J × J)) : Option Obj :=
  (updErr [] ((alget payload "*").getD (.obj []))).bind fun r1 =>
  match varKey with
  | .obj _ => none
  | .arr _ => none
  | _ =>
    match (jget ms varKey).getD (.str "") with
    | .obj _ => none
    | .arr _ => none
    | .str s =>
      if (alget payload s).isSome then updErr r1 ((alget payload s).getD (.obj []))
      else updErr r1 ((alget payload "~").getD (.obj []))
    | _ => updErr r1 ((alget payload "~").getD (.obj []))

/-- The outcome of one operator section of `resolve_config_state`: either
fall through to the next operator, or restart the reducer on the updated
rule. -/
inductive StepRes where
  | fall (config : Obj) (st : MState)
  | recurse (config : Obj) (st : MState)
deriving Repr, DecidableEq

/-- The `set` operator: a dict is a bulk write into `mock_state`, any other
truthy value is stored under the rule's `variable` (default the path).
Always falls through within the same pass. -/
def applySet (path : String) (config : Obj) (st : MState) : Option (Obj × MState) :=
  let p := popKey config "set"
  match p.1 with
  | none => some (config, st)
  | some v =>
    if !truthy v then some (p.2, st)
    else
      match v with
      | .obj kvs =>
        some (p.2, { st with mock_state := kvs.foldl (fun m e => jset m (.str e.1) e.2) st.mock_state })
      | _ =>
        let varKey := (alget p.2 "variable").getD (.str path)
        match varKey with
        | .obj _ => none
        | .arr _ => none
        | _ => some (p.2, { st with mock_state := jset st.mock_state varKey v })

/-- The `once` operator: sugar that feeds `{"1": value}` through
`count_based_config` and restarts the reducer. -/
def onceSection (path : String) (config : Obj) (st : MState) : Option StepRes :=
  let p := popKey config "once"
  match p.1 with
  | none => some (.fall config st)
  | some v =>
    if !truthy v then some (.fall p.2 st)
    else
      (count_based_config path (.obj [("1", v)]) st.hit_count).map
        (fun r => .recurse (objUpdate p.2 r.1) { st with hit_count := r.2 })

/-- The `count` operator: layers the count-based sub-configuration and
restarts the reducer. -/
def countSection (path : String) (config : Obj) (st : MState) : Option StepRes :=
  let p := popKey config "count"
  match p.1 with
  | none => some (.fall config st)
  | some v =>
    if !truthy v then some (.fall p.2 st)
    else
      (count_based_config path v st.hit_count).map
        (fun r => .recurse (objUpdate p.2 r.1) { st with hit_count := r.2 })

/-- The `cycle` operator: reads the cycle-id (the `cycle-id` field, default
the path), selects the element at the stored index modulo the length,
increments the stored index without bound, and restarts the reducer. -/
def cycleSection (path : String) (config : Obj) (st : MState) : Option StepRes :=
  let p := popKey config "cycle"
  match p.1 with
  | none => some (.fall config st)
  | some v =>
    if !truthy v then some (.fall p.2 st)
    else
      match v with
      | .arr l =>
        let cid := (alget p.2 "cycle-id").getD (.str path)
        match cid with
        | .obj _ => none
        | .arr _ => none
        | _ =>
          let idx := (jget st.cycle_index cid).getD 0
          let st2 := { st with cycle_index := jset st.cycle_index cid (idx + 1) }
          match l[(idx % (l.length : Int)).toNat]? with
          | some (.obj kvs) => some (.recurse (objUpdate p.2 kvs) st2)
          | _ => none
      | _ => none

/-- The `random` operator: merges the element chosen by the randomness
oracle and restarts the reducer. -/
def randomSection (rand : List J → J) (path : String) (config : Obj) (st : MState) : Option StepRes :=
  let p := popKey config "random"
  match p.1 with
  | none => some (.fall config st)
  | some v =>
    if !truthy v then some (.fall p.2 st)
    else
      match v with
      | .arr l =>
        match rand l with
        | .obj kvs => some (.recurse (objUpdate p.2 kvs) st)
        | _ => none
      | _ => none

/-- The `state` operator: merges the branch selected by the variable's
stored value via `state_based_config` and restarts the reducer. -/
def stateSection (path : String) (config : Obj) (st : MState) : Option StepRes :=
  let p := popKey config "state"
  match p.1 with
  | none => some (.fall config st)
  | some v =>
    if !truthy v then some (.fall p.2 st)
    else
      match v with
      | .obj payload =>
        let varKey := (alget payload "variable").getD ((alget p.2 "variable").getD (.str path))
        (state_based_config varKey payload st.mock_state).map
          (fun r => .recurse (objUpdate p.2 r) st)
      | _ => none

/-- `resolve_config_state(path, config)`: repeatedly consumes the operator
keys in source order (`set`, `once`, `count`, `cycle`, `random`, `state`),
restarting after each applied operator, until a pass finds none.  `fuel`
bounds the recursion depth (each Python recursive call costs one unit);
`rand` is the randomness oracle standing in for `random.choice`. -/
def resolve_config_state (rand : List J → J) (fuel : Nat) (path : String) (config : Obj) (st : MState) : Option (Obj × MState) :=
  match fuel with
  | 0 => none
  | f + 1 =>
    (applySet path config st).bind fun s1 =>
    (onceSection path s1.1 s1.2).bind fun r1 =>
    match r1 with
    | .recurse c st2 => resolve_config_state rand f path c st2
    | .fall c1 st1 =>
      (countSection path c1 st1).bind fun r2 =>
      match r2 with
      | .recurse c st2 => resolve_config_state rand f path c st2
      | .fall c2 st2 =>
        (cycleSection path c2 st2).bind fun r3 =>
        match r3 with
        | .recurse c st3 => resolve_config_state rand f path c st3
        | .fall c3 st3 =>
          (randomSection rand path c3 st3).bind fun r4 =>
          match r4 with
          | .recurse c st4 => resolve_config_state rand f path c st4
          | .fall c4 st4 =>
            (stateSection path c4 st4).bind fun r5 =>
            match r5 with
            | .recurse c st5 => resolve_config_state rand f path c st5
            | .fall c5 st5 => some (c5, st5)

/-- The path-specifier selection step of `resolve_config`: look up the
handlers map by the full request path (including the query string), then by
the query-stripped path; a miss (or a `null` handler, indistinguishable from
a miss in the source) walks the ordered regex table and takes the handler of
the first pattern whose search hits the full request path; `none` when
nothing matches. -/
def resolve_path_handler (ext : Ext) (handlers : Obj) (reH : List (String × J)) (fullPath : String) : Option J :=
  let path := stripQuery fullPath
  let ph := (alget handlers fullPath).getD ((alget handlers path).getD .null)
  let ph2 :=
    if ph = .null then
      match reH.find? (fun e => ext.reSearch e.1 fullPath) with
      | some e => e.2
      | none => J.null
    else ph
  if ph2 = .null then none else some ph2

/-- The whole-engine state swapped by the configuration loader. -/
structure Engine where
  mock_config : J
  re_request : List (String × J)
  re_response : List (String × J)
  hit_count : List (J × Int)
  cycle_index : List (J × Int)
  mock_state : List (J × J)
  re_cache : List String
  config_modified_at : Option Int
deriving Repr, DecidableEq

/-- The fold of `extract_regex_paths` over the handler entries: tilde keys
are compiled (consulting and growing the regex cache; a pattern that fails
to compile and is not already cached is dropped) and added to the table in
insertion order, keyed by the pattern. -/
def extractFold (reOk : String → Bool) (kvs : List (String × J)) (tbl : List (String × J)) (cache : List String) : List (String × J) × List String :=
  match kvs with
  | [] => (tbl, cache)
  | (k, h) :: rest =>
    if !pyStartsWith k "~" then extractFold reOk rest tbl cache
    else
      let pat := k.drop 1
      if cache.contains pat then extractFold reOk rest (alset tbl pat h) cache
      else if reOk pat then extractFold reOk rest (alset tbl pat h) (cache ++ [pat])
      else extractFold reOk rest tbl cache

/-- `extract_regex_paths(config)`: the ordered table of compiled regex paths
of a handlers map.  A missing or falsy map yields an empty table; iterating
a truthy non-dict raises (`none`); `reOk` tells which patterns the external
regex engine accepts. -/
def extract_regex_paths (reOk : String → Bool) (cfg : Option J) (cache : List String) : Option (List (String × J) × List String) :=
  match cfg with
  | none => some ([], cache)
  | some v =>
    if !truthy v then some ([], cache)
    else
      match v with
      | .obj kvs => some (extractFold reOk kvs [] cache)
      | _ => none

/-- `load_config_file(mock_filename)`: `readResult` is the outcome of
opening and parsing the file (`none`: cannot open; `some (t, none)`: opened
with mtime `t` but the JSON does not parse; `some (t, some cfg)`: parsed).
The mtime is recorded as soon as the file is open, before parsing; on a
successful parse the regex tables are rebuilt, the new config installed,
and the hit counters, cycle indices and variable store cleared.  Every
failure is caught and logged, leaving the remaining state in place. -/
def load_config_file (reOk : String → Bool) (readResult : Option (Int × Option J)) (st : Engine) : Engine :=
  match readResult with
  | none => st
  | some (t, none) => { st with config_modified_at := some t }
  | some (t, some cfg) =>
    match cfg with
    | .obj kvs =>
      match extract_regex_paths reOk (alget kvs "request") st.re_cache with
      | none => { st with config_modified_at := some t }
      | some (rq, cache1) =>
        match extract_regex_paths reOk (alget kvs "response") cache1 with
        | none => { st with config_modified_at := some t, re_cache := cache1 }
        | some (rs, cache2) =>
          { mock_config := .obj kvs
            re_request := rq
            re_response := rs
            hit_count := []
            cycle_index := []
            mock_state := []
            re_cache := cache2
            config_modified_at := some t }
    | _ => { st with config_modified_at := some t }


/-- A concrete external-collaborator instance used by concrete evaluations:
no regex matches, substitution returns the text unchanged, no JSON text
parses, no files exist. -/
def ext0 : Ext := ⟨fun _ _ => false, fun _ _ s => s, fun _ => none, fun _ => none⟩

/-- A deterministic stand-in for `random.choice`, picking the first
element. -/
def rand0 : List J → J := fun l => l.headD .null

/-- The empty engine state. -/
def mst0 : MState := ⟨[], [], []⟩

theorem alget_nil (k : String) : alget [] k = none := rfl

theorem alget_cons (e : String × J) (rest : Obj) (k : String) :
    alget (e :: rest) k = if e.1 = k then some e.2 else alget rest k := by
  by_cases h : e.1 = k
  · simp [alget, List.find?_cons_of_pos, h]
  · simp [alget, List.find?_cons_of_neg, h]

theorem jget_nil {α : Type} (k : J) : jget ([] : List (J × α)) k = none := rfl

theorem jget_cons {α : Type} (e : J × α) (rest : List (J × α)) (k : J) :
    jget (e :: rest) k = if e.1 = k then some e.2 else jget rest k := by
  by_cases h : e.1 = k
  · simp [jget, List.find?_cons_of_pos, h]
  · simp [jget, List.find?_cons_of_neg, h]

theorem popKey_fst (d : Obj) (k : String) : (popKey d k).1 = alget d k := by
  induction d with
  | nil => simp [popKey, alget_nil]
  | cons e rest ih =>
    by_cases h : e.1 = k
    · simp [popKey, alget_cons, h]
    · simp [popKey, alget_cons, h, ih]

theorem alget_none_iff (d : Obj) (k : String) : alget d k = none ↔ ∀ e ∈ d, e.1 ≠ k := by
  simp [alget, List.find?_eq_none]

theorem popKey_absent (d : Obj) (k : String) (h : alget d k = none) : popKey d k = (none, d) := by
  induction d with
  | nil => simp [popKey]
  | cons e rest ih =>
    rw [alget_none_iff] at h
    have he : e.1 ≠ k := h e (by simp)
    have hr : alget rest k = none := by
      rw [alget_none_iff]; exact fun x hx => h x (by simp [hx])
    simp [popKey, he, ih hr]

theorem popKey_sublist (d : Obj) (k : String) : List.Sublist (popKey d k).2 d := by
  induction d with
  | nil => simp [popKey]
  | cons e rest ih =>
    by_cases h : e.1 = k
    · simp [popKey, h]
    · simpa [popKey, h] using ih.cons₂ e

theorem mem_popKey (d : Obj) (k : String) (e : String × J) (h : e ∈ (popKey d k).2) : e ∈ d :=
  (popKey_sublist d k).mem h

theorem alget_popKey_ne (d : Obj) (k k2 : String) (h : k2 ≠ k) :
    alget (popKey d k).2 k2 = alget d k2 := by
  induction d with
  | nil => simp [popKey]
  | cons e rest ih =>
    by_cases he : e.1 = k
    · have he2 : ¬ e.1 = k2 := by rw [he]; exact fun hk => h hk.symm
      simp [popKey, he, alget_cons, he2, Ne.symm h]
    · by_cases he2 : e.1 = k2
      · simp [popKey, he, alget_cons, he2, h]
      · simp [popKey, he, alget_cons, he2, ih]

theorem mem_alset (d : Obj) (k : String) (v : J) (e : String × J) (h : e ∈ alset d k v) :
    e = (k, v) ∨ e ∈ d := by
  induction d with
  | nil => simp [alset] at h; simp [h]
  | cons f rest ih =>
    by_cases hf : f.1 = k
    · simp [alset, hf] at h
      rcases h with h | h
      · exact Or.inl h
      · exact Or.inr (by simp [h])
    · simp [alset, hf] at h
      rcases h with h | h
      · exact Or.inr (by simp [h])
      · rcases ih h with h2 | h2
        · exact Or.inl h2
        · exact Or.inr (by simp [h2])

theorem mem_objUpdate (d u : Obj) (e : String × J) (h : e ∈ objUpdate d u) :
    e ∈ d ∨ e ∈ u := by
  induction u generalizing d with
  | nil => simp [objUpdate] at h; exact Or.inl h
  | cons f rest ih =>
    have hu : objUpdate d (f :: rest) = objUpdate (alset d f.1 f.2) rest := by
      simp [objUpdate]
    rw [hu] at h
    rcases ih (alset d f.1 f.2) h with h2 | h2
    · rcases mem_alset d f.1 f.2 e h2 with h3 | h3
      · exact Or.inr (by simp [h3])
      · exact Or.inl h3
    · exact Or.inr (by simp [h2])

theorem jget_jset_self {α : Type} (d : List (J × α)) (k : J) (v : α) :
    jget (jset d k v) k = some v := by
  induction d with
  | nil => simp [jset, jget_cons]
  | cons e rest ih =>
    by_cases h : e.1 = k
    · simp [jset, h, jget_cons]
    · simp [jset, h, jget_cons, ih]

theorem jget_jset_ne {α : Type} (d : List (J × α)) (k k2 : J) (v : α) (h : k2 ≠ k) :
    jget (jset d k v) k2 = jget d k2 := by
  induction d with
  | nil => simp [jset, jget_cons, jget_nil, Ne.symm h]
  | cons e rest ih =>
    by_cases he : e.1 = k
    · have hk2 : ¬ e.1 = k2 := by rw [he]; exact Ne.symm h
      simp [jset, he, jget_cons, hk2, Ne.symm h]
    · simp [jset, he, jget_cons, ih]

theorem alset_self (d : Obj) (k : String) (v : J) (h : alget d k = some v) :
    alset d k v = d := by
  induction d with
  | nil => simp [alget_nil] at h
  | cons e rest ih =>
    by_cases he : e.1 = k
    · rw [alget_cons, if_pos he] at h
      cases e with
      | mk k0 v0 =>
        simp at he
        simp at h
        simp [alset, he, h]
    · rw [alget_cons, if_neg he] at h
      simp [alset, he, ih h]

theorem alget_alset_self (d : Obj) (k : String) (v : J) : alget (alset d k v) k = some v := by
  induction d with
  | nil => simp [alset, alget_cons]
  | cons e rest ih =>
    by_cases h : e.1 = k
    · simp [alset, h, alget_cons]
    · simp [alset, h, alget_cons, ih]

theorem alget_alset_ne (d : Obj) (k k2 : String) (v : J) (h : k2 ≠ k) :
    alget (alset d k v) k2 = alget d k2 := by
  induction d with
  | nil => simp [alset, alget_cons, alget_nil, Ne.symm h]
  | cons e rest ih =>
    by_cases he : e.1 = k
    · have hk2 : ¬ e.1 = k2 := by rw [he]; exact Ne.symm h
      simp [alset, he, alget_cons, hk2, Ne.symm h]
    · simp [alset, he, alget_cons, ih]


/-- A populated engine state used by the loader theorems: non-trivial
stores, a non-empty regex cache, and a recorded mtime. -/
def engA : Engine :=
  ⟨.obj [("x", .num 1)], [("p", .obj [])], [], [(.str "a", 3)], [(.str "b", 1)],
   [(.str "c", .str "v")], ["pat"], some 1⟩

/-- Claim C3 (counterexample): a load whose file opens but whose JSON does
not parse updates `config_modified_at` to the new mtime, so the previous
engine state is not left fully in place as the claim asserts; every other
store is preserved. -/
theorem c3_counterexample :
    (load_config_file (fun _ => true) (some (2, none)) engA).config_modified_at = some 2 ∧
    engA.config_modified_at = some 1 ∧
    (load_config_file (fun _ => true) (some (2, none)) engA).mock_config = engA.mock_config ∧
    (load_config_file (fun _ => true) (some (2, none)) engA).hit_count = engA.hit_count :=
  ⟨rfl, rfl, rfl, rfl⟩

/-- Claim C3 (amended): when the configuration file cannot be opened the
whole engine state is preserved; when it opens but its JSON does not parse,
`mock_config`, `re_request`, `re_response`, `hit_count`, `cycle_index`,
`mock_state` and `re_cache` are preserved while `config_modified_at` is
updated to the file's mtime. -/
theorem c3_load_failure_preserves_state (reOk : String → Bool) (st : Engine) (t : Int) :
    load_config_file reOk none st = st ∧
    load_config_file reOk (some (t, none)) st =
      { mock_config := st.mock_config, re_request := st.re_request,
        re_response := st.re_response, hit_count := st.hit_count,
        cycle_index := st.cycle_index, mock_state := st.mock_state,
        re_cache := st.re_cache, config_modified_at := some t } :=
  ⟨rfl, rfl⟩

theorem extractFold_cache_mono (reOk : String → Bool) (kvs : List (String × J))
    (tbl : List (String × J)) (cache : List String) (p : String) (hp : p ∈ cache) :
    p ∈ (extractFold reOk kvs tbl cache).2 := by
  induction kvs generalizing tbl cache with
  | nil => simpa [extractFold] using hp
  | cons e rest ih =>
    cases hs : pyStartsWith e.1 "~" with
    | false => simpa [extractFold, hs] using ih _ _ hp
    | true =>
      cases hc : cache.contains (e.1.drop 1) with
      | true =>
        have hc2 : (e.1.drop 1) ∈ cache := by simpa using hc
        simpa [extractFold, hs, hc2] using ih _ _ hp
      | false =>
        have hc2 : ¬ (e.1.drop 1) ∈ cache := by simpa using hc
        cases hr : reOk (e.1.drop 1) with
        | true => simpa [extractFold, hs, hc2, hr] using ih _ _ (List.mem_append_left _ hp)
        | false => simpa [extractFold, hs, hc2, hr] using ih _ _ hp

theorem extract_cache_mono (reOk : String → Bool) (cfg : Option J) (cache : List String)
    (tbl : List (String × J)) (cache2 : List String)
    (h : extract_regex_paths reOk cfg cache = some (tbl, cache2)) (p : String) (hp : p ∈ cache) :
    p ∈ cache2 := by
  match cfg with
  | none =>
    simp [extract_regex_paths] at h
    rw [← h.2]; exact hp
  | some v =>
    by_cases ht : truthy v
    · match v with
      | .obj kvs =>
        simp [extract_regex_paths, ht] at h
        have h2 : (extractFold reOk kvs [] cache).2 = cache2 := by rw [h]
        rw [← h2]
        exact extractFold_cache_mono reOk kvs [] cache p hp
      | .null | .bool _ | .num _ | .str _ | .arr _ =>
        simp [extract_regex_paths, ht] at h
    · simp [extract_regex_paths, ht] at h
      rw [← h.2]; exact hp

/-- Claim C2 (counterexample): a successful reload clears `hit_count`,
`cycle_index` and `mock_state` but leaves the compiled-regex cache intact,
contradicting the claim that `re_cache` is cleared at the same moment. -/
theorem c2_counterexample :
    (load_config_file (fun _ => true) (some (2, some (.obj []))) engA).hit_count = [] ∧
    (load_config_file (fun _ => true) (some (2, some (.obj []))) engA).cycle_index = [] ∧
    (load_config_file (fun _ => true) (some (2, some (.obj []))) engA).mock_state = [] ∧
    (load_config_file (fun _ => true) (some (2, some (.obj []))) engA).re_cache = ["pat"] ∧
    ["pat"] ≠ ([] : List String) :=
  ⟨rfl, rfl, rfl, rfl, by decide⟩

/-- Claim C2 (amended): on every successful (re)load the three stateful
stores `hit_count`, `cycle_index` and `mock_state` are cleared, but the
compiled-regex cache is not: every previously cached pattern survives the
reload (the cache only grows, by the patterns compiled while extracting
regex paths). -/
theorem c2_load_success_clears_counters_keeps_re_cache
    (reOk : String → Bool) (st : Engine) (t : Int) (kvs : Obj)
    (rq rs : List (String × J)) (cache1 cache2 : List String)
    (h1 : extract_regex_paths reOk (alget kvs "request") st.re_cache = some (rq, cache1))
    (h2 : extract_regex_paths reOk (alget kvs "response") cache1 = some (rs, cache2)) :
    (load_config_file reOk (some (t, some (.obj kvs))) st).hit_count = [] ∧
    (load_config_file reOk (some (t, some (.obj kvs))) st).cycle_index = [] ∧
    (load_config_file reOk (some (t, some (.obj kvs))) st).mock_state = [] ∧
    (load_config_file reOk (some (t, some (.obj kvs))) st).re_cache = cache2 ∧
    ∀ p ∈ st.re_cache, p ∈ (load_config_file reOk (some (t, some (.obj kvs))) st).re_cache := by
  have key : load_config_file reOk (some (t, some (.obj kvs))) st =
      { mock_config := .obj kvs, re_request := rq, re_response := rs, hit_count := [],
        cycle_index := [], mock_state := [], re_cache := cache2,
        config_modified_at := some t } := by
    simp only [load_config_file, h1, h2]
  rw [key]
  refine ⟨rfl, rfl, rfl, rfl, ?_⟩
  intro p hp
  exact extract_cache_mono reOk _ _ _ _ h2 p
    (extract_cache_mono reOk _ _ _ _ h1 p hp)

/-- Witness for the amended C2 theorem at a concrete reload of `engA`. -/
theorem c2_witness :
    (load_config_file (fun _ => true) (some (5, some (.obj []))) engA).hit_count = [] ∧
    (load_config_file (fun _ => true) (some (5, some (.obj []))) engA).re_cache = ["pat"] := by
  have h := c2_load_success_clears_counters_keeps_re_cache (fun _ => true) engA 5 []
    [] [] ["pat"] ["pat"] rfl rfl
  exact ⟨h.1, h.2.2.2.1⟩


theorem delFold_filter (ext : Ext) (d : List J) (l : List J) :
    d.foldl (fun acc dl => acc.filter (fun x => !is_subset ext dl x)) l
      = l.filter (fun x => d.all (fun dl => !is_subset ext dl x)) := by
  induction d generalizing l with
  | nil => simp
  | cons dl rest ih =>
    simp only [List.foldl_cons, ih, List.filter_filter, List.all_cons]
    apply List.filter_congr
    intro x _
    cases is_subset ext dl x <;> simp

/-- Claim C8 (counterexample): a scalar `delete` falls through both type
branches of `delete_content` and returns the content unchanged, not the
empty list as the claim asserts. -/
theorem c8_counterexample :
    delete_content ext0 (.num 5) (.arr [.num 1]) = some (.arr [.num 1]) ∧
    some (J.arr [.num 1]) ≠ some (J.arr []) :=
  ⟨by simp [delete_content], by decide⟩

/-- Claim C8 (amended): when `delete` is a non-empty list and the content is
a list, exactly the elements matched by no deletion pattern (under
`is_subset`) survive; when `delete` is a list but is empty or the content is
not a list, the content becomes the empty list; when `delete` is neither a
mapping nor a list (a scalar), the content is returned unchanged. -/
theorem c8_delete_content_non_dict (ext : Ext) :
    (∀ d l, d ≠ [] →
      delete_content ext (.arr d) (.arr l) =
        some (.arr (l.filter (fun x => d.all (fun dl => !is_subset ext dl x))))) ∧
    (∀ content, delete_content ext (.arr []) content = some (.arr [])) ∧
    (∀ d content, d ≠ [] → (∀ l, content ≠ .arr l) →
      delete_content ext (.arr d) content = some (.arr [])) ∧
    (∀ content, delete_content ext .null content = some content) ∧
    (∀ b content, delete_content ext (.bool b) content = some content) ∧
    (∀ n content, delete_content ext (.num n) content = some content) ∧
    (∀ s content, delete_content ext (.str s) content = some content) := by
  refine ⟨?_, ?_, ?_, fun _ => by simp [delete_content], fun _ _ => by simp [delete_content],
    fun _ _ => by simp [delete_content], fun _ _ => by simp [delete_content]⟩
  · intro d l hd
    have he : d.isEmpty = false := by cases d with | nil => exact absurd rfl hd | cons a r => rfl
    simp [delete_content, he, delFold_filter]
  · intro content
    cases content <;> simp [delete_content]
  · intro d content hd hna
    have he : d.isEmpty = false := by cases d with | nil => exact absurd rfl hd | cons a r => rfl
    cases content with
    | arr l => exact absurd rfl (hna l)
    | null => simp [delete_content, he]
    | bool b => simp [delete_content, he]
    | num n => simp [delete_content, he]
    | str s => simp [delete_content, he]
    | obj o => simp [delete_content, he]

/-- Witness for the amended C8 theorem at concrete inputs. -/
theorem c8_witness :
    delete_content ext0 (.arr [.num 1]) (.arr [.num 1, .num 2]) = some (.arr [.num 2]) := by
  have h := (c8_delete_content_non_dict ext0).1 [.num 1] [.num 1, .num 2] (by decide)
  rw [h]
  simp [is_subset, pyEq, List.filter]

/-- A concrete request used by the matcher theorems. -/
def reqA : Request := ⟨"h", "http", "GET", "/a?x=1", [("x", "1")], none⟩

/-- Claim C9 (counterexample): the empty handler-object does not match any
request: `request_matches_config` returns `False` for it up front, contrary
to the claim that it matches. -/
theorem c9_counterexample :
    request_matches_config ext0 [] [] reqA [] = some false ∧
    (some false : Option Bool) ≠ some true :=
  ⟨rfl, by decide⟩

/-- Claim C9 (amended): every non-empty handler-object that contains none of
the predicate keys `host`, `scheme`, `method`, `path`, `query`, `request`,
`require` matches every request (given no top-level `host` or `scheme`
default); the empty handler-object instead fails to match. -/
theorem c9_request_matches_no_predicates (ext : Ext) (mc : Obj) (ms : List (J × J))
    (req : Request) (config : Obj)
    (hne : config ≠ [])
    (hhost : alget config "host" = none) (hscheme : alget config "scheme" = none)
    (hmethod : alget config "method" = none) (hpath : alget config "path" = none)
    (hquery : alget config "query" = none) (hreq : alget config "request" = none)
    (hrequire : alget config "require" = none)
    (hmc1 : alget mc "host" = none) (hmc2 : alget mc "scheme" = none) :
    request_matches_config ext mc ms req config = some true := by
  have hc : config.isEmpty = false := by
    cases config with | nil => exact absurd rfl hne | cons a r => rfl
  simp [request_matches_config, hc, hhost, hscheme, hmethod, hpath, hquery, hreq, hrequire,
    hmc1, hmc2, host_matches, truthy]

/-- Witness for the amended C9 theorem at a concrete handler-object. -/
theorem c9_witness :
    request_matches_config ext0 [] [] reqA [("respond", .str "ok")] = some true :=
  c9_request_matches_no_predicates ext0 [] [] reqA [("respond", .str "ok")]
    (by decide) rfl rfl rfl rfl rfl rfl rfl rfl rfl


mutual
/-- The condition of the amended merge round-trip: no `where`,
`replace_with` or `replace_in` key at any level, no duplicate object keys,
no non-empty list, and no file-reference string. -/
def mergeIdemOk : J → Bool
  | .null => true
  | .bool _ => true
  | .num _ => true
  | .str s => !fileRef s
  | .arr l => l.isEmpty
  | .obj kvs => mergeIdemOkO kvs

/-- `mergeIdemOk` over the entries of an object. -/
def mergeIdemOkO : List (String × J) → Bool
  | [] => true
  | (k, v) :: rest =>
    !(k == "where" || k == "replace_with" || k == "replace_in") &&
    !(rest.any (fun e => e.1 == k)) && mergeIdemOk v && mergeIdemOkO rest
end

mutual
/-- Sufficient recursion fuel for `merge_content` on a JSON value. -/
def mcFuel : J → Nat
  | .arr l => mcFuelL l + 1
  | .obj kvs => mcFuelO kvs + 1
  | _ => 1

/-- Sufficient fuel for `appendEach` over a list. -/
def mcFuelL : List J → Nat
  | [] => 1
  | a :: rest => max (mcFuel a) (mcFuelL rest) + 1

/-- Sufficient fuel for `mergeEntries` over object entries. -/
def mcFuelO : List (String × J) → Nat
  | [] => 1
  | e :: rest => max (mcFuel e.2) (mcFuelO rest) + 1
end

theorem mergeIdemOkO_parts (k : String) (v : J) (rest : List (String × J))
    (h : mergeIdemOkO ((k, v) :: rest) = true) :
    (k ≠ "where" ∧ k ≠ "replace_with" ∧ k ≠ "replace_in") ∧
    (∀ e ∈ rest, e.1 ≠ k) ∧ mergeIdemOk v = true ∧ mergeIdemOkO rest = true := by
  simp only [mergeIdemOkO, Bool.and_eq_true] at h
  obtain ⟨⟨⟨h1, h2⟩, h3⟩, h4⟩ := h
  refine ⟨?_, ?_, h3, h4⟩
  · simpa [not_or, and_assoc] using h1
  · intro e he
    simp only [Bool.not_eq_true', List.any_eq_false] at h2
    simpa using h2 e he

theorem mergeIdemOkO_keys (kvs : List (String × J)) (h : mergeIdemOkO kvs = true) :
    alget kvs "where" = none ∧ alget kvs "replace_with" = none ∧ alget kvs "replace_in" = none := by
  induction kvs with
  | nil => simp [alget_nil]
  | cons e rest ih =>
    match e with
    | (k, v) =>
      obtain ⟨⟨hk1, hk2, hk3⟩, _, _, hrest⟩ := mergeIdemOkO_parts k v rest h
      have hr := ih hrest
      refine ⟨?_, ?_, ?_⟩ <;> rw [alget_cons] <;> simp only [] <;> [rw [if_neg hk1]; rw [if_neg hk2]; rw [if_neg hk3]] <;> tauto

theorem mergeIdemOkO_mem (kvs : List (String × J)) (h : mergeIdemOkO kvs = true)
    (e : String × J) (he : e ∈ kvs) : mergeIdemOk e.2 = true := by
  induction kvs with
  | nil => simp at he
  | cons f rest ih =>
    match f with
    | (k, v) =>
      obtain ⟨_, _, hv, hrest⟩ := mergeIdemOkO_parts k v rest h
      rcases List.mem_cons.mp he with h2 | h2
      · rw [h2]; exact hv
      · exact ih hrest h2

theorem mergeIdemOkO_alget (kvs : List (String × J)) (h : mergeIdemOkO kvs = true)
    (e : String × J) (he : e ∈ kvs) : alget kvs e.1 = some e.2 := by
  induction kvs with
  | nil => simp at he
  | cons f rest ih =>
    match f with
    | (k, v) =>
      obtain ⟨_, hnodup, _, hrest⟩ := mergeIdemOkO_parts k v rest h
      rcases List.mem_cons.mp he with h2 | h2
      · rw [h2]; simp [alget_cons]
      · rw [alget_cons]
        have hne : ¬ k = e.1 := fun hk => hnodup e h2 hk.symm
        simp only []
        rw [if_neg hne]
        exact ih hrest h2

theorem mcFuelO_mem (kvs : List (String × J)) (e : String × J) (he : e ∈ kvs) :
    mcFuel e.2 < mcFuelO kvs := by
  induction kvs with
  | nil => simp at he
  | cons f rest ih =>
    rcases List.mem_cons.mp he with h2 | h2
    · rw [h2]; simp [mcFuelO]; omega
    · have := ih h2
      simp [mcFuelO]
      omega

theorem mergeEntries_fixed (ext : Ext) : ∀ (f : Nat) (m c : List (String × J)),
    (∀ e ∈ m, alget c e.1 = some e.2) →
    (∀ e ∈ m, ∀ g, g < f → mcFuel e.2 ≤ g → merge_content ext g e.2 e.2 = some e.2) →
    mcFuelO m ≤ f → mergeEntries ext f m c = some c := by
  intro f
  induction f with
  | zero => intro m c _ _ hf; simp [mcFuelO] at hf; cases m <;> simp [mcFuelO] at hf
  | succ g ih =>
    intro m c h1 h2 hf
    match m with
    | [] => simp [mergeEntries]
    | (k, v) :: rest =>
      have hfm : max (mcFuel v) (mcFuelO rest) + 1 ≤ g + 1 := by simpa [mcFuelO] using hf
      have hv : mcFuel v ≤ g := by omega
      have hrest : mcFuelO rest ≤ g := by omega
      have ha := h1 (k, v) (by simp)
      have hm := h2 (k, v) (by simp) g (by omega) hv
      rw [mergeEntries]
      simp only at ha hm
      rw [ha]
      simp only [Option.getD_some]
      rw [hm]
      simp only [Option.some_bind]
      rw [alset_self c k v ha]
      exact ih rest c (fun x hx => h1 x (by simp [hx]))
        (fun x hx g2 hg2 hfx => h2 x (by simp [hx]) g2 (by omega) hfx) hrest

/-- Claim C7 (counterexample): merging a non-empty list into itself appends,
so the merge round-trip fails on any JSON value containing a non-empty
list: `merge_content([1], [1])` is `[1, 1]`, which is not equal (by Python
equality) to `[1]`. -/
theorem c7_counterexample :
    merge_content ext0 5 (.arr [.num 1]) (.arr [.num 1]) = some (.arr [.num 1, .num 1]) ∧
    pyEq (J.arr [.num 1, .num 1]) (.arr [.num 1]) = false :=
  ⟨rfl, by decide⟩

/-- Claim C7 (amended): `merge_content(x, x) = x` holds for every JSON value
`x` that contains no `where`, `replace_with` or `replace_in` key, no
non-empty list, no duplicate object keys and no file-reference string
(given sufficient recursion fuel); an `x` containing a non-empty list
instead has the list appended to itself. -/
theorem c7_merge_content_self (ext : Ext) (fuel : Nat) (x : J)
    (hok : mergeIdemOk x = true) (hd : mcFuel x ≤ fuel) :
    merge_content ext fuel x x = some x := by
  induction fuel using Nat.strong_induction_on generalizing x with
  | _ fuel ih =>
    match x with
    | .null =>
      match fuel with
      | 0 => simp [mcFuel] at hd
      | f + 1 => simp [merge_content, resolve_value]
    | .bool b =>
      match fuel with
      | 0 => simp [mcFuel] at hd
      | f + 1 => simp [merge_content, resolve_value]
    | .num n =>
      match fuel with
      | 0 => simp [mcFuel] at hd
      | f + 1 => simp [merge_content, resolve_value]
    | .str s =>
      have hf : fileRef s = false := by simpa [mergeIdemOk] using hok
      match fuel with
      | 0 => simp [mcFuel] at hd
      | f + 1 => simp [merge_content, resolve_value, hf]
    | .arr l =>
      have hl : l = [] := by simpa [mergeIdemOk, List.isEmpty_iff] using hok
      subst hl
      match fuel with
      | 0 => simp [mcFuel] at hd
      | 1 => simp [mcFuel, mcFuelL] at hd
      | f + 2 => simp [merge_content, resolve_value, appendEach]
    | .obj kvs =>
      have hko : mergeIdemOkO kvs = true := by simpa [mergeIdemOk] using hok
      have hkeys := mergeIdemOkO_keys kvs hko
      match fuel with
      | 0 => simp [mcFuel] at hd
      | f + 1 =>
        have hdf : mcFuelO kvs ≤ f := by simp [mcFuel] at hd; omega
        have hstep : merge_content ext (f + 1) (J.obj kvs) (J.obj kvs) =
            (mergeEntries ext f kvs kvs).map J.obj := by
          rw [merge_content]
          simp [resolve_value, hkeys.2.1, hkeys.2.2]
          · intro h
            simp at h
          · intro c h
            simp at h
        rw [hstep, mergeEntries_fixed ext f kvs kvs
          (fun e he => mergeIdemOkO_alget kvs hko e he)
          (fun e he g hg hf2 => ih g (by omega) e.2 (mergeIdemOkO_mem kvs hko e he) hf2)
          hdf]
        rfl

/-- Witness for the amended C7 theorem at a concrete object. -/
theorem c7_witness :
    merge_content ext0 10 (.obj [("a", .num 1), ("b", .str "x")])
      (.obj [("a", .num 1), ("b", .str "x")]) = some (.obj [("a", .num 1), ("b", .str "x")]) :=
  c7_merge_content_self ext0 10 (.obj [("a", .num 1), ("b", .str "x")]) (by decide) (by decide)


theorem msGet_jset_unset (ms : List (J × J)) (var : J) (hunset : jget ms var = none)
    (v : J) : msGet (jset ms var (.str "")) v = msGet ms v := by
  by_cases h : v = var
  · subst h
    simp [msGet, jget_jset_self, hunset]
  · simp [msGet, jget_jset_ne ms var v (.str "") h]

theorem requireAll_congr (ext : Ext) (ms1 ms2 : List (J × J))
    (h : ∀ v, msGet ms1 v = msGet ms2 v) (kvs : List (String × J)) :
    requireAll ext ms1 kvs = requireAll ext ms2 kvs := by
  induction kvs with
  | nil => simp [requireAll]
  | cons e rest ih =>
    match e with
    | (k, v) => simp [requireAll, h, ih]

/-- Claim C10: a variable that has never been set behaves exactly as if it
held the empty string: setting it to `""` changes neither predicate
matching nor `state` branch selection, and when the state mapping has a
`""` key that branch is chosen (layered over `*`), not the `~` fallback. -/
theorem c10_unset_variable_empty_string (ext : Ext) (mc : Obj) (req : Request)
    (config : Obj) (ms : List (J × J)) (vs : String)
    (hunset : jget ms (.str vs) = none) :
    (request_matches_config ext mc (jset ms (.str vs) (.str "")) req config =
       request_matches_config ext mc ms req config) ∧
    (∀ vk payload, state_based_config vk payload (jset ms (.str vs) (.str "")) =
       state_based_config vk payload ms) ∧
    (∀ payload b, alget payload "" = some b →
       state_based_config (.str vs) payload ms =
         (updErr [] ((alget payload "*").getD (.obj []))).bind (fun r1 => updErr r1 b)) := by
  have hms : ∀ v, msGet (jset ms (.str vs) (.str "")) v = msGet ms v :=
    msGet_jset_unset ms (.str vs) hunset
  have hms2 : ∀ vk, (jget (jset ms (.str vs) (.str "")) vk).getD (.str "") =
      (jget ms vk).getD (.str "") := by
    intro vk
    have := hms vk
    simpa [msGet] using this
  refine ⟨?_, ?_, ?_⟩
  · have hreq : ∀ kvs, requireAll ext (jset ms (.str vs) (.str "")) kvs = requireAll ext ms kvs :=
      requireAll_congr ext _ ms hms
    simp only [request_matches_config, hreq, hms]
  · intro vk payload
    simp only [state_based_config, hms2]
  · intro payload b hb
    simp only [state_based_config, hunset, Option.getD_none, hb, Option.isSome_some, if_true,
      Option.getD_some]

/-- Witness for C10: with no variable set, a state mapping keyed by `""`
selects that branch rather than the `~` fallback. -/
theorem c10_witness :
    state_based_config (.str "v") [("", .obj [("p", .num 1)]), ("~", .obj [("q", .num 2)])] [] =
      some [("p", .num 1)] := by
  have h := (c10_unset_variable_empty_string ext0 [] reqA [] [] "v" rfl).2.2
    [("", .obj [("p", .num 1)]), ("~", .obj [("q", .num 2)])] (.obj [("p", .num 1)]) rfl
  rw [h]
  rfl


/-- The rewriting of a rule that replaces its `once` key by
`count: {"1": value}`, as the spec's sugar claim describes. -/
def replaceOnce (c : Obj) : Obj :=
  c.map (fun e => if e.1 = "once" then ("count", J.obj [("1", e.2)]) else e)

theorem replaceOnce_nil : replaceOnce [] = [] := rfl

theorem replaceOnce_cons (e : String × J) (rest : Obj) :
    replaceOnce (e :: rest) =
      (if e.1 = "once" then ("count", J.obj [("1", e.2)]) else e) :: replaceOnce rest := rfl

theorem alget_replaceOnce_ne (c : Obj) (k : String) (h1 : k ≠ "once") (h2 : k ≠ "count") :
    alget (replaceOnce c) k = alget c k := by
  induction c with
  | nil => simp [replaceOnce_nil]
  | cons e rest ih =>
    rw [replaceOnce_cons]
    by_cases he : e.1 = "once"
    · rw [if_pos he, alget_cons, alget_cons]
      rw [if_neg (fun hck : (("count", J.obj [("1", e.2)]) : String × J).1 = k => h2 hck.symm),
        if_neg (fun hek : e.1 = k => h1 (he ▸ hek).symm)]
      exact ih
    · rw [if_neg he, alget_cons, alget_cons]
      by_cases hek : e.1 = k
      · rw [if_pos hek, if_pos hek]
      · rw [if_neg hek, if_neg hek]
        exact ih

theorem alget_replaceOnce_once (c : Obj) : alget (replaceOnce c) "once" = none := by
  induction c with
  | nil => simp [replaceOnce_nil, alget_nil]
  | cons e rest ih =>
    rw [replaceOnce_cons, alget_cons]
    by_cases he : e.1 = "once"
    · rw [if_pos he]
      rw [if_neg (fun h : (("count", J.obj [("1", e.2)]) : String × J).1 = "once" => by simp at h)]
      exact ih
    · rw [if_neg he]
      rw [if_neg he]
      exact ih

theorem replaceOnce_id (c : Obj) (h : ∀ e ∈ c, e.1 ≠ "once") : replaceOnce c = c := by
  induction c with
  | nil => simp [replaceOnce_nil]
  | cons e rest ih =>
    rw [replaceOnce_cons, if_neg (h e (by simp)), ih (fun x hx => h x (by simp [hx]))]

theorem popKey_replaceOnce_ne (c : Obj) (k : String) (h1 : k ≠ "once") (h2 : k ≠ "count") :
    popKey (replaceOnce c) k = ((popKey c k).1, replaceOnce (popKey c k).2) := by
  induction c with
  | nil => simp [replaceOnce_nil, popKey]
  | cons e rest ih =>
    rw [replaceOnce_cons]
    by_cases he : e.1 = "once"
    · rw [if_pos he]
      rw [popKey, popKey]
      simp only []
      rw [if_neg (fun hck : ("count" : String) = k => h2 hck.symm),
        if_neg (fun hek : e.1 = k => h1 (he ▸ hek).symm)]
      rw [ih, replaceOnce_cons, if_pos he]
    · rw [if_neg he]
      rw [popKey, popKey]
      by_cases hek : e.1 = k
      · rw [if_pos hek, if_pos hek]
      · rw [if_neg hek, if_neg hek]
        rw [ih, replaceOnce_cons, if_neg he]

theorem popKey_replaceOnce_count (c : Obj) (hnc : ∀ e ∈ c, e.1 ≠ "count") :
    popKey (replaceOnce c) "count" =
      ((alget c "once").map (fun v => J.obj [("1", v)]), replaceOnce (popKey c "once").2) := by
  induction c with
  | nil => simp [replaceOnce_nil, popKey, alget_nil]
  | cons e rest ih =>
    rw [replaceOnce_cons]
    by_cases he : e.1 = "once"
    · rw [if_pos he]
      rw [popKey, popKey, alget_cons, if_pos he]
      simp only [if_true]
      rw [if_pos he]
      rfl
    · rw [if_neg he]
      rw [popKey, popKey, alget_cons, if_neg he]
      have hec : ¬ e.1 = "count" := hnc e (by simp)
      rw [if_neg hec, if_neg he]
      rw [ih (fun x hx => hnc x (by simp [hx]))]
      rw [replaceOnce_cons, if_neg he]

theorem popKey_no_more (c : Obj) (k : String) (v : J)
    (hocc : (c.filter (fun e => e.1 == k)).length ≤ 1) (hk : alget c k = some v) :
    ∀ e ∈ (popKey c k).2, e.1 ≠ k := by
  induction c with
  | nil => simp [popKey]
  | cons f rest ih =>
    by_cases hf : f.1 = k
    · rw [popKey]
      rw [if_pos hf]
      intro e he hek
      have hflt : (f :: rest).filter (fun e => e.1 == k) =
          f :: rest.filter (fun e => e.1 == k) := by
        simp [List.filter_cons, hf]
      rw [hflt] at hocc
      simp only [List.length_cons] at hocc
      have hzero : (rest.filter (fun e => e.1 == k)).length = 0 := by omega
      rw [List.length_eq_zero] at hzero
      have hmem : e ∈ rest.filter (fun e => e.1 == k) :=
        List.mem_filter.mpr ⟨he, by simp [hek]⟩
      rw [hzero] at hmem
      simp at hmem
    · rw [popKey]
      rw [if_neg hf]
      intro e he
      rcases List.mem_cons.mp he with h2 | h2
      · rw [h2]; exact hf
      · have hocc2 : (rest.filter (fun e => e.1 == k)).length ≤ 1 := by
          have hflt : (f :: rest).filter (fun e => e.1 == k) =
              rest.filter (fun e => e.1 == k) := by
            simp [List.filter_cons, hf]
          rw [hflt] at hocc
          exact hocc
        have hk2 : alget rest k = some v := by
          rw [alget_cons, if_neg hf] at hk
          exact hk
        exact ih hocc2 hk2 e h2

theorem applySet_replaceOnce (path : String) (c : Obj) (st : MState) :
    applySet path (replaceOnce c) st =
      (applySet path c st).map (fun r => (replaceOnce r.1, r.2)) := by
  have hp := popKey_replaceOnce_ne c "set" (by decide) (by decide)
  have hvv := alget_replaceOnce_ne (popKey c "set").2 "variable" (by decide) (by decide)
  unfold applySet
  rw [hp]
  cases hpk : (popKey c "set").1 with
  | none =>
    simp only [hpk]
    rfl
  | some v =>
    simp only [hpk]
    by_cases hv : truthy v
    · match v with
      | .obj kvs => simp [hv]
      | .null => simp [truthy] at hv
      | .bool b =>
        simp only [hv, Bool.not_true, Bool.false_eq_true, if_false]
        rw [hvv]
        cases (alget (popKey c "set").2 "variable").getD (.str path) <;> simp
      | .num n =>
        simp only [hv, Bool.not_true, Bool.false_eq_true, if_false]
        rw [hvv]
        cases (alget (popKey c "set").2 "variable").getD (.str path) <;> simp
      | .str s =>
        simp only [hv, Bool.not_true, Bool.false_eq_true, if_false]
        rw [hvv]
        cases (alget (popKey c "set").2 "variable").getD (.str path) <;> simp
      | .arr l =>
        simp only [hv, Bool.not_true, Bool.false_eq_true, if_false]
        rw [hvv]
        cases (alget (popKey c "set").2 "variable").getD (.str path) <;> simp
    · simp [hv]


theorem filter_popKey_le (c : Obj) (k k2 : String) :
    ((popKey c k).2.filter (fun e => e.1 == k2)).length ≤
      (c.filter (fun e => e.1 == k2)).length :=
  ((popKey_sublist c k).filter _).length_le

theorem applySet_absent (path : String) (c : Obj) (st : MState) (h : alget c "set" = none) :
    applySet path c st = some (c, st) := by
  unfold applySet
  rw [popKey_absent c "set" h]

theorem onceSection_absent (path : String) (c : Obj) (st : MState) (h : alget c "once" = none) :
    onceSection path c st = some (.fall c st) := by
  unfold onceSection
  rw [popKey_absent c "once" h]

theorem countSection_absent (path : String) (c : Obj) (st : MState) (h : alget c "count" = none) :
    countSection path c st = some (.fall c st) := by
  unfold countSection
  rw [popKey_absent c "count" h]

theorem cycleSection_absent (path : String) (c : Obj) (st : MState) (h : alget c "cycle" = none) :
    cycleSection path c st = some (.fall c st) := by
  unfold cycleSection
  rw [popKey_absent c "cycle" h]

theorem randomSection_absent (rand : List J → J) (path : String) (c : Obj) (st : MState)
    (h : alget c "random" = none) : randomSection rand path c st = some (.fall c st) := by
  unfold randomSection
  rw [popKey_absent c "random" h]

theorem stateSection_absent (path : String) (c : Obj) (st : MState) (h : alget c "state" = none) :
    stateSection path c st = some (.fall c st) := by
  unfold stateSection
  rw [popKey_absent c "state" h]

theorem onceSection_eq (path : String) (c : Obj) (st : MState) (v : J) (c2 : Obj)
    (hp : popKey c "once" = (some v, c2)) (hv : truthy v = true) :
    onceSection path c st = (count_based_config path (.obj [("1", v)]) st.hit_count).map
      (fun r => .recurse (objUpdate c2 r.1) { st with hit_count := r.2 }) := by
  unfold onceSection
  rw [hp]
  simp [hv]

theorem countSection_eq (path : String) (c : Obj) (st : MState) (v : J) (c2 : Obj)
    (hp : popKey c "count" = (some v, c2)) (hv : truthy v = true) :
    countSection path c st = (count_based_config path v st.hit_count).map
      (fun r => .recurse (objUpdate c2 r.1) { st with hit_count := r.2 }) := by
  unfold countSection
  rw [hp]
  simp [hv]

theorem applySet_cases (path : String) (c : Obj) (st : MState) (c1 : Obj) (st1 : MState)
    (h : applySet path c st = some (c1, st1)) : c1 = c ∨ c1 = (popKey c "set").2 := by
  unfold applySet at h
  simp only [] at h
  cases hpk : (popKey c "set").1 with
  | none =>
    rw [hpk] at h
    simp at h
    exact Or.inl h.1.symm
  | some v =>
    rw [hpk] at h
    by_cases hv : truthy v
    · cases v with
      | obj kvs =>
        simp [hv] at h
        exact Or.inr h.1.symm
      | null => simp [truthy] at hv
      | bool b =>
        simp only [hv, Bool.not_true, Bool.false_eq_true, if_false] at h
        cases hvk : (alget (popKey c "set").2 "variable").getD (.str path) with
        | obj o => rw [hvk] at h; simp at h
        | arr a => rw [hvk] at h; simp at h
        | null => rw [hvk] at h; simp at h; exact Or.inr h.1.symm
        | bool b2 => rw [hvk] at h; simp at h; exact Or.inr h.1.symm
        | num n2 => rw [hvk] at h; simp at h; exact Or.inr h.1.symm
        | str s2 => rw [hvk] at h; simp at h; exact Or.inr h.1.symm
      | num n =>
        simp only [hv, Bool.not_true, Bool.false_eq_true, if_false] at h
        cases hvk : (alget (popKey c "set").2 "variable").getD (.str path) with
        | obj o => rw [hvk] at h; simp at h
        | arr a => rw [hvk] at h; simp at h
        | null => rw [hvk] at h; simp at h; exact Or.inr h.1.symm
        | bool b2 => rw [hvk] at h; simp at h; exact Or.inr h.1.symm
        | num n2 => rw [hvk] at h; simp at h; exact Or.inr h.1.symm
        | str s2 => rw [hvk] at h; simp at h; exact Or.inr h.1.symm
      | str s =>
        simp only [hv, Bool.not_true, Bool.false_eq_true, if_false] at h
        cases hvk : (alget (popKey c "set").2 "variable").getD (.str path) with
        | obj o => rw [hvk] at h; simp at h
        | arr a => rw [hvk] at h; simp at h
        | null => rw [hvk] at h; simp at h; exact Or.inr h.1.symm
        | bool b2 => rw [hvk] at h; simp at h; exact Or.inr h.1.symm
        | num n2 => rw [hvk] at h; simp at h; exact Or.inr h.1.symm
        | str s2 => rw [hvk] at h; simp at h; exact Or.inr h.1.symm
      | arr l =>
        simp only [hv, Bool.not_true, Bool.false_eq_true, if_false] at h
        cases hvk : (alget (popKey c "set").2 "variable").getD (.str path) with
        | obj o => rw [hvk] at h; simp at h
        | arr a => rw [hvk] at h; simp at h
        | null => rw [hvk] at h; simp at h; exact Or.inr h.1.symm
        | bool b2 => rw [hvk] at h; simp at h; exact Or.inr h.1.symm
        | num n2 => rw [hvk] at h; simp at h; exact Or.inr h.1.symm
        | str s2 => rw [hvk] at h; simp at h; exact Or.inr h.1.symm
    · simp [hv] at h
      exact Or.inr h.1.symm

/-- Claim C6 (counterexample): a rule `{once: null}` performs no counting
(the falsy payload short-circuits before `count_based_config`), while the
claimed-equivalent `{count: {"1": null}}` has a truthy non-empty dict
payload and increments the hit counter; the flat rules agree but the
hit_count updates differ. -/
theorem c6_counterexample :
    resolve_config_state rand0 10 "p" [("once", .null)] mst0 = some ([], mst0) ∧
    resolve_config_state rand0 10 "p" [("count", .obj [("1", .null)])] mst0 =
      some ([], ⟨[(.str "p", 1)], [], []⟩) ∧
    (⟨[(.str "p", 1)], [], []⟩ : MState) ≠ mst0 :=
  ⟨by decide, by decide, by decide⟩

/-- Claim C6 (amended): for every rule whose `once` value is truthy and
which has no `count` key of its own (and at most one `once` entry),
resolving the rule is identical — same flat rule, same state updates — to
resolving the rule with the `once` key replaced by `count: {"1": value}`;
when the `once` value is falsy the equivalence fails, because `once` then
performs no counting while `count: {"1": value}` still increments. -/
theorem c6_once_equals_count (rand : List J → J) (fuel : Nat) (path : String) (st : MState)
    (config : Obj) (v : J)
    (h1 : alget config "once" = some v) (hv : truthy v = true)
    (h2 : alget config "count" = none)
    (hocc : (config.filter (fun e => e.1 == "once")).length ≤ 1) :
    resolve_config_state rand fuel path (replaceOnce config) st =
      resolve_config_state rand fuel path config st := by
  cases fuel with
  | zero => rfl
  | succ f =>
    cases hAS : applySet path config st with
    | none =>
      have hAS2 := applySet_replaceOnce path config st
      rw [hAS] at hAS2
      rw [resolve_config_state, resolve_config_state, hAS, hAS2]
      rfl
    | some s1 =>
      obtain ⟨c1, st1⟩ := s1
      have hAS2 := applySet_replaceOnce path config st
      rw [hAS] at hAS2
      have hcc := applySet_cases path config st c1 st1 hAS
      have h1c : alget c1 "once" = some v := by
        rcases hcc with h | h
        · rw [h]; exact h1
        · rw [h, alget_popKey_ne config "set" "once" (by decide)]; exact h1
      have h2c : alget c1 "count" = none := by
        rcases hcc with h | h
        · rw [h]; exact h2
        · rw [h, alget_popKey_ne config "set" "count" (by decide)]; exact h2
      have hoccc : (c1.filter (fun e => e.1 == "once")).length ≤ 1 := by
        rcases hcc with h | h
        · rw [h]; exact hocc
        · rw [h]; exact le_trans (filter_popKey_le config "set" "once") hocc
      have hnc : ∀ e ∈ c1, e.1 ≠ "count" := (alget_none_iff c1 "count").mp h2c
      have hgone : ∀ e ∈ (popKey c1 "once").2, e.1 ≠ "once" := popKey_no_more c1 "once" v hoccc h1c
      have hrid : replaceOnce (popKey c1 "once").2 = (popKey c1 "once").2 := replaceOnce_id _ hgone
      have hpc : popKey (replaceOnce c1) "count" = (some (.obj [("1", v)]), (popKey c1 "once").2) := by
        rw [popKey_replaceOnce_count c1 hnc, h1c, hrid]
        rfl
      have hpair : popKey c1 "once" = (some v, (popKey c1 "once").2) := by
        rw [Prod.ext_iff]
        exact ⟨by rw [popKey_fst]; exact h1c, rfl⟩
      have honceL := onceSection_absent path (replaceOnce c1) st1 (alget_replaceOnce_once c1)
      have hcountL := countSection_eq path (replaceOnce c1) st1 (.obj [("1", v)])
        (popKey c1 "once").2 hpc rfl
      have honceR := onceSection_eq path c1 st1 v (popKey c1 "once").2 hpair hv
      rw [resolve_config_state, resolve_config_state, hAS, hAS2]
      simp only [Option.map_some', Option.some_bind]
      rw [honceL, honceR]
      simp only [Option.some_bind]
      rw [hcountL]
      cases hcb : count_based_config path (.obj [("1", v)]) st1.hit_count with
      | none => rfl
      | some r => rfl

/-- Witness for the amended C6 theorem at a concrete rule. -/
theorem c6_witness :
    resolve_config_state rand0 5 "p" (replaceOnce [("once", .obj [("r", .str "y")])]) mst0 =
      resolve_config_state rand0 5 "p" [("once", .obj [("r", .str "y")])] mst0 :=
  c6_once_equals_count rand0 5 "p" mst0 [("once", .obj [("r", .str "y")])]
    (.obj [("r", .str "y")]) rfl rfl rfl (by decide)


/-- A rule with none of the six state-operator keys. -/
def opFreeCfg (c : Obj) : Bool :=
  c.all (fun e => !(e.1 == "set" || e.1 == "once" || e.1 == "count" ||
    e.1 == "cycle" || e.1 == "random" || e.1 == "state"))

theorem opFree_alget (c : Obj) (h : opFreeCfg c = true) :
    alget c "set" = none ∧ alget c "once" = none ∧ alget c "count" = none ∧
    alget c "cycle" = none ∧ alget c "random" = none ∧ alget c "state" = none := by
  simp only [opFreeCfg, List.all_eq_true, Bool.not_eq_true', Bool.or_eq_false_iff,
    beq_eq_false_iff_ne] at h
  refine ⟨?_, ?_, ?_, ?_, ?_, ?_⟩ <;> rw [alget_none_iff] <;> intro e he <;>
    have h2 := h e he <;> tauto

theorem opFree_mem (c : Obj) (h : opFreeCfg c = true) (e : String × J) (he : e ∈ c) :
    e.1 ≠ "set" ∧ e.1 ≠ "once" ∧ e.1 ≠ "count" ∧ e.1 ≠ "cycle" ∧
    e.1 ≠ "random" ∧ e.1 ≠ "state" := by
  simp only [opFreeCfg, List.all_eq_true, Bool.not_eq_true', Bool.or_eq_false_iff,
    beq_eq_false_iff_ne] at h
  have h2 := h e he
  tauto

theorem opFree_of_mem (c : Obj)
    (h : ∀ e ∈ c, e.1 ≠ "set" ∧ e.1 ≠ "once" ∧ e.1 ≠ "count" ∧ e.1 ≠ "cycle" ∧
      e.1 ≠ "random" ∧ e.1 ≠ "state") : opFreeCfg c = true := by
  simp only [opFreeCfg, List.all_eq_true, Bool.not_eq_true', Bool.or_eq_false_iff,
    beq_eq_false_iff_ne]
  intro e he
  have h2 := h e he
  tauto

theorem opFree_objUpdate (d u : Obj) (hd : opFreeCfg d = true) (hu : opFreeCfg u = true) :
    opFreeCfg (objUpdate d u) = true := by
  apply opFree_of_mem
  intro e he
  rcases mem_objUpdate d u e he with h | h
  · exact opFree_mem d hd e h
  · exact opFree_mem u hu e h

/-- A rule whose operator keys are all consumed resolves to itself: every
section falls through. -/
theorem opFree_resolve (rand : List J → J) (f : Nat) (path : String) (c : Obj) (st : MState)
    (h : opFreeCfg c = true) :
    resolve_config_state rand (f + 1) path c st = some (c, st) := by
  obtain ⟨hset, honce, hcount, hcycle, hrandom, hstate⟩ := opFree_alget c h
  rw [resolve_config_state]
  rw [applySet_absent path c st hset]
  simp only [Option.some_bind]
  rw [onceSection_absent path c st honce]
  simp only [Option.some_bind]
  rw [countSection_absent path c st hcount]
  simp only [Option.some_bind]
  rw [cycleSection_absent path c st hcycle]
  simp only [Option.some_bind]
  rw [randomSection_absent rand path c st hrandom]
  simp only [Option.some_bind]
  rw [stateSection_absent path c st hstate]
  rfl

/-- The single-specifier cycle rule of the C5 claim. -/
def cycleRule (l : List Obj) : Obj := [("cycle", .arr (l.map J.obj))]

/-- A cycle rule with an explicit `cycle-id`. -/
def cycleRuleId (q : String) (l : List Obj) : Obj :=
  [("cycle", .arr (l.map J.obj)), ("cycle-id", .str q)]

theorem cycle_step_general (rand : List J → J) (f : Nat) (path : String) (l : List Obj)
    (restCfg : Obj) (st : MState) (hl : l ≠ [])
    (hclean : ∀ o ∈ l, opFreeCfg o = true) (hrest : opFreeCfg restCfg = true)
    (s : String) (hcid : (alget restCfg "cycle-id").getD (.str path) = .str s) :
    resolve_config_state rand (f + 2) path (("cycle", .arr (l.map J.obj)) :: restCfg) st =
      some (objUpdate restCfg
              (l.getD (((jget st.cycle_index (.str s)).getD 0 % (l.length : Int)).toNat) []),
            { st with cycle_index := jset st.cycle_index (.str s) ((jget st.cycle_index (.str s)).getD 0 + 1) }) := by
  obtain ⟨hset, honce, hcount, hcycle, hrandom, hstate⟩ := opFree_alget restCfg hrest
  have hkey : ∀ k2, k2 ≠ "cycle" → alget (("cycle", J.arr (l.map J.obj)) :: restCfg) k2 =
      alget restCfg k2 := by
    intro k2 hk2
    rw [alget_cons, if_neg (fun hh : ("cycle" : String) = k2 => hk2 hh.symm)]
  have hlen : 0 < l.length := List.length_pos.mpr hl
  have hlenz : (l.length : Int) ≠ 0 := by exact_mod_cast Nat.pos_iff_ne_zero.mp hlen
  set idx : Int := (jget st.cycle_index (.str s)).getD 0 with hidx
  have hmod0 : 0 ≤ idx % (l.length : Int) := Int.emod_nonneg idx hlenz
  have hmodlt : idx % (l.length : Int) < (l.length : Int) := by
    apply Int.emod_lt_of_pos
    exact_mod_cast hlen
  have hi : (idx % (l.length : Int)).toNat < l.length := by omega
  have hcycstep : cycleSection path (("cycle", J.arr (l.map J.obj)) :: restCfg) st =
      some (.recurse (objUpdate restCfg (l.getD ((idx % (l.length : Int)).toNat) []))
        { st with cycle_index := jset st.cycle_index (.str s) (idx + 1) }) := by
    unfold cycleSection
    have hpop : popKey (("cycle", J.arr (l.map J.obj)) :: restCfg) "cycle" =
        (some (J.arr (l.map J.obj)), restCfg) := by
      rw [popKey]
      simp
    rw [hpop]
    have htr : truthy (J.arr (l.map J.obj)) = true := by
      cases l with
      | nil => exact absurd rfl hl
      | cons a r => rfl
    simp only [htr, Bool.not_true, Bool.false_eq_true, if_false]
    rw [hcid]
    simp only []
    have hget : (l.map J.obj)[(idx % ((l.map J.obj).length : Int)).toNat]? =
        some (J.obj (l.getD ((idx % (l.length : Int)).toNat) [])) := by
      rw [List.length_map]
      rw [List.getElem?_map]
      rw [List.getElem?_eq_getElem hi]
      rw [List.getD_eq_getElem l [] hi]
      rfl
    rw [hget]
  rw [show f + 2 = (f + 1) + 1 from rfl, resolve_config_state]
  have hset2 : alget (("cycle", J.arr (l.map J.obj)) :: restCfg) "set" = none := by
    rw [hkey "set" (by decide)]; exact hset
  rw [applySet_absent path _ st hset2]
  simp only [Option.some_bind]
  rw [onceSection_absent path _ st (by rw [hkey "once" (by decide)]; exact honce)]
  simp only [Option.some_bind]
  rw [countSection_absent path _ st (by rw [hkey "count" (by decide)]; exact hcount)]
  simp only [Option.some_bind]
  rw [hcycstep]
  simp only [Option.some_bind]
  have helem : opFreeCfg (l.getD ((idx % (l.length : Int)).toNat) []) = true := by
    have : l.getD ((idx % (l.length : Int)).toNat) [] ∈ l := by
      rw [List.getD_eq_getElem l [] hi]
      exact List.getElem_mem hi
    exact hclean _ this
  exact opFree_resolve rand f path _ _ (opFree_objUpdate restCfg _ hrest helem)


/-- Iterated evaluation of a cycle rule: one `resolve_config_state` call per
step, collecting the engine state. -/
def cycIter (rand : List J → J) (f : Nat) (path : String) (l : List Obj) : Nat → MState → MState
  | 0, st => st
  | n + 1, st =>
    match resolve_config_state rand f path (cycleRule l) st with
    | some r => cycIter rand f path l n r.2
    | none => st

theorem cycIter_step (rand : List J → J) (f : Nat) (path : String) (l : List Obj)
    (n : Nat) (st : MState) (flat : Obj) (st2 : MState)
    (h : resolve_config_state rand f path (cycleRule l) st = some (flat, st2)) :
    cycIter rand f path l (n + 1) st = cycIter rand f path l n st2 := by
  rw [cycIter, h]

theorem cycIter_closed (rand : List J → J) (f : Nat) (path : String) (l : List Obj)
    (hl : l ≠ []) (hclean : ∀ o ∈ l, opFreeCfg o = true) :
    ∀ (n : Nat) (k : Int), cycIter rand (f + 2) path l n ⟨[], [(.str path, k)], []⟩ =
      ⟨[], [(.str path, k + n)], []⟩ := by
  intro n
  induction n with
  | zero => intro k; simp [cycIter]
  | succ m ih =>
    intro k
    have hstep := cycle_step_general rand f path l [] ⟨[], [(.str path, k)], []⟩ hl hclean rfl path rfl
    rw [show (("cycle", J.arr (l.map J.obj)) :: [] : Obj) = cycleRule l from rfl] at hstep
    have hst : ({ (⟨[], [(.str path, k)], []⟩ : MState) with
        cycle_index := jset [(.str path, k)] (.str path) ((jget ([(.str path, k)] : List (J × Int)) (.str path)).getD 0 + 1) } : MState) =
        ⟨[], [(.str path, k + 1)], []⟩ := by
      simp [jget_cons, jset]
    rw [hst] at hstep
    rw [cycIter_step rand (f + 2) path l m _ _ _ hstep, ih (k + 1)]
    rw [show k + 1 + (m : Int) = k + ((m + 1 : Nat) : Int) from by push_cast; ring]

theorem cycIter_mst0 (rand : List J → J) (f : Nat) (path : String) (l : List Obj)
    (hl : l ≠ []) (hclean : ∀ o ∈ l, opFreeCfg o = true) :
    ∀ n : Nat, (jget (cycIter rand (f + 2) path l n mst0).cycle_index (.str path)).getD 0 = (n : Int) ∧
      (cycIter rand (f + 2) path l n mst0).hit_count = [] ∧
      (cycIter rand (f + 2) path l n mst0).mock_state = [] ∧
      (cycIter rand (f + 2) path l n mst0).cycle_index = (if n = 0 then [] else [(.str path, (n : Int))]) := by
  intro n
  cases n with
  | zero => refine ⟨rfl, rfl, rfl, rfl⟩
  | succ m =>
    have hstep := cycle_step_general rand f path l [] mst0 hl hclean rfl path rfl
    rw [show (("cycle", J.arr (l.map J.obj)) :: [] : Obj) = cycleRule l from rfl] at hstep
    have hst : ({ mst0 with
        cycle_index := jset mst0.cycle_index (.str path) ((jget mst0.cycle_index (.str path)).getD 0 + 1) } : MState) =
        ⟨[], [(.str path, 1)], []⟩ := by
      simp [mst0, jget, jset]
    rw [hst] at hstep
    rw [cycIter_step rand (f + 2) path l m mst0 _ _ hstep]
    rw [cycIter_closed rand f path l hl hclean m 1]
    rw [show (1 : Int) + (m : Int) = ((m + 1 : Nat) : Int) from by push_cast; ring]
    refine ⟨?_, rfl, rfl, ?_⟩
    · show (jget [(J.str path, ((m + 1 : Nat) : Int))] (.str path)).getD 0 = ((m + 1 : Nat) : Int)
      rw [jget_cons, if_pos rfl]
      rfl
    · rw [if_neg (by omega : ¬ (m + 1 = 0))]

/-- Claim C5: for a cycle of length L under a fixed cycle-id, (a) each
evaluation reaching the cycle operator selects the element at the stored
index modulo L and increments the stored index, (b) evaluations under a
distinct explicit cycle-id do not perturb any other id's index, and (c)
starting fresh, consecutive evaluations select elements 0, 1, ..., L-1,
0, ... in order. -/
theorem c5_cycle_wrap (rand : List J → J) (f : Nat) (path : String) (l : List Obj)
    (hl : l ≠ []) (hclean : ∀ o ∈ l, opFreeCfg o = true) :
    (∀ st : MState, resolve_config_state rand (f + 2) path (cycleRule l) st =
      some (objUpdate [] (l.getD (((jget st.cycle_index (.str path)).getD 0 % (l.length : Int)).toNat) []),
            { st with cycle_index := jset st.cycle_index (.str path) ((jget st.cycle_index (.str path)).getD 0 + 1) })) ∧
    (∀ (q : String) (st : MState) (flat : Obj) (st2 : MState) (j : J),
      resolve_config_state rand (f + 2) path (cycleRuleId q l) st = some (flat, st2) →
      j ≠ .str q → jget st2.cycle_index j = jget st.cycle_index j) ∧
    (∀ n : Nat, resolve_config_state rand (f + 2) path (cycleRule l) (cycIter rand (f + 2) path l n mst0) =
      some (objUpdate [] (l.getD (n % l.length) []), ⟨[], [(.str path, (n : Int) + 1)], []⟩)) := by
  refine ⟨?_, ?_, ?_⟩
  · intro st
    exact cycle_step_general rand f path l [] st hl hclean rfl path rfl
  · intro q st flat st2 j hres hj
    rw [show cycleRuleId q l = ("cycle", J.arr (l.map J.obj)) :: [("cycle-id", .str q)] from rfl] at hres
    rw [cycle_step_general rand f path l [("cycle-id", .str q)] st hl hclean (by simp [opFreeCfg]) q rfl] at hres
    have hst2 : st2 = { st with cycle_index := jset st.cycle_index (.str q) ((jget st.cycle_index (.str q)).getD 0 + 1) } := by
      have := (Option.some.injEq _ _).mp hres
      exact (congrArg Prod.snd this).symm
    rw [hst2]
    exact jget_jset_ne st.cycle_index (.str q) j _ hj
  · intro n
    obtain ⟨hidx, hhit, hmock, hcyc⟩ := cycIter_mst0 rand f path l hl hclean n
    rw [show cycleRule l = ("cycle", J.arr (l.map J.obj)) :: [] from rfl]
    rw [cycle_step_general rand f path l [] _ hl hclean rfl path rfl]
    rw [hidx]
    have hlen : 0 < l.length := List.length_pos.mpr hl
    have hmodcast : (((n : Int)) % ((l.length : Nat) : Int)).toNat = n % l.length := by
      omega
    rw [hmodcast]
    congr 1
    congr 1
    cases hMS : cycIter rand (f + 2) path l n mst0 with
    | mk hc cc mc =>
      rw [hMS] at hhit hmock hcyc hidx
      simp only [] at hhit hmock hcyc
      rw [hhit, hmock, hcyc]
      by_cases hn : n = 0
      · subst hn
        simp [jset]
      · rw [if_neg hn]
        simp [jset]

/-- Witness for C5 at a concrete two-element cycle, third consecutive
evaluation selecting index 2 mod 2 = 0. -/
theorem c5_witness :
    resolve_config_state rand0 5 "/r" (cycleRule [[("s1", .num 1)], [("s2", .num 2)]])
      (cycIter rand0 5 "/r" [[("s1", .num 1)], [("s2", .num 2)]] 2 mst0) =
      some ([("s1", .num 1)], ⟨[], [(.str "/r", 3)], []⟩) :=
  (c5_cycle_wrap rand0 3 "/r" [[("s1", .num 1)], [("s2", .num 2)]]
    (by decide) (by decide)).2.2 2

mutual

/-- Hereditarily `once`/`count`-free JSON: no object at any nesting depth
carries a `once` or `count` key.  Rules of this shape never touch
`hit_count` (claim C1). -/
def noCntJ : J → Bool
  | .null => true
  | .bool _ => true
  | .num _ => true
  | .str _ => true
  | .arr l => noCntL l
  | .obj o => noCntO o

def noCntL : List J → Bool
  | [] => true
  | x :: xs => noCntJ x && noCntL xs

def noCntO : Obj → Bool
  | [] => true
  | (k, v) :: rest => !(k == "once" || k == "count") && noCntJ v && noCntO rest

end

theorem alset_absent (d : Obj) (k : String) (v : J) (h : alget d k = none) :
    alset d k v = d ++ [(k, v)] := by
  induction d with
  | nil => rfl
  | cons e rest ih =>
    rw [alget_cons] at h
    by_cases he : e.1 = k
    · rw [if_pos he] at h
      exact Option.noConfusion h
    · rw [if_neg he] at h
      simp [alset, he, ih h]

theorem find_first_append {α : Type} (p : α → Bool) (pre : List α) (e : α) (post : List α)
    (hpre : ∀ x ∈ pre, p x = false) (he : p e = true) :
    (pre ++ e :: post).find? p = some e := by
  induction pre with
  | nil => simp [List.find?_cons_of_pos, he]
  | cons a t ih =>
    rw [List.cons_append, List.find?_cons_of_neg]
    · exact ih (fun x hx => hpre x (by simp [hx]))
    · simp [hpre a (by simp)]

/-- With patterns that all compile (or are already cached) and no duplicate
tilde patterns, `extractFold` appends exactly the tilde entries in source
order. -/
theorem extractFold_first (reOk : String → Bool) :
    ∀ (kvs : List (String × J)) (tbl : List (String × J)) (cache : List String),
    (∀ e ∈ kvs, pyStartsWith e.1 "~" = true →
      cache.contains (e.1.drop 1) = true ∨ reOk (e.1.drop 1) = true) →
    (kvs.filterMap (fun e => if pyStartsWith e.1 "~" = true then some (e.1.drop 1) else none)).Nodup →
    (∀ p ∈ kvs.filterMap (fun e => if pyStartsWith e.1 "~" = true then some (e.1.drop 1) else none),
      p ∉ tbl.map Prod.fst) →
    (extractFold reOk kvs tbl cache).1 =
      tbl ++ kvs.filterMap (fun e => if pyStartsWith e.1 "~" = true then some (e.1.drop 1, e.2) else none) := by
  intro kvs
  induction kvs with
  | nil =>
    intro tbl cache _ _ _
    simp [extractFold]
  | cons a rest ih =>
    intro tbl cache hOK hND hdisj
    obtain ⟨k, h⟩ := a
    by_cases hst : pyStartsWith k "~" = true
    · have hfm1 : (((k, h) : String × J) :: rest).filterMap
          (fun e => if pyStartsWith e.1 "~" = true then some (e.1.drop 1) else none) =
          k.drop 1 :: rest.filterMap
            (fun e => if pyStartsWith e.1 "~" = true then some (e.1.drop 1) else none) := by
        simp [hst]
      have hfm2 : (((k, h) : String × J) :: rest).filterMap
          (fun e => if pyStartsWith e.1 "~" = true then some (e.1.drop 1, e.2) else none) =
          (k.drop 1, h) :: rest.filterMap
            (fun e => if pyStartsWith e.1 "~" = true then some (e.1.drop 1, e.2) else none) := by
        simp [hst]
      rw [hfm1] at hND hdisj
      rw [hfm2]
      have hknotin : k.drop 1 ∉ rest.filterMap
          (fun e => if pyStartsWith e.1 "~" = true then some (e.1.drop 1) else none) :=
        (List.nodup_cons.mp hND).1
      have hNDrest := (List.nodup_cons.mp hND).2
      have habs : alget tbl (k.drop 1) = none := by
        rw [alget_none_iff]
        intro e he heq
        exact hdisj (k.drop 1) (List.mem_cons_self _ _)
          (by rw [← heq]; exact List.mem_map_of_mem Prod.fst he)
      have htbl2 : ∀ p ∈ rest.filterMap
          (fun e => if pyStartsWith e.1 "~" = true then some (e.1.drop 1) else none),
          p ∉ (alset tbl (k.drop 1) h).map Prod.fst := by
        intro p hp
        rw [alset_absent tbl (k.drop 1) h habs, List.map_append]
        intro hmem
        rcases List.mem_append.mp hmem with hm | hm
        · exact hdisj p (List.mem_cons_of_mem _ hp) hm
        · simp at hm
          exact hknotin (hm ▸ hp)
      by_cases hc : cache.contains (k.drop 1) = true
      · have hcm : k.drop 1 ∈ cache := List.mem_of_elem_eq_true hc
        have hstep : extractFold reOk ((k, h) :: rest) tbl cache =
            extractFold reOk rest (alset tbl (k.drop 1) h) cache := by
          simp [extractFold, hst, hcm]
        rw [hstep, ih (alset tbl (k.drop 1) h) cache
          (fun e he hte => hOK e (List.mem_cons_of_mem _ he) hte) hNDrest htbl2]
        rw [alset_absent tbl (k.drop 1) h habs]
        simp
      · have hok : reOk (k.drop 1) = true := by
          rcases hOK (k, h) (List.mem_cons_self _ _) hst with h1 | h1
          · exact absurd h1 hc
          · exact h1
        have hcm : k.drop 1 ∉ cache := fun hm => hc (List.elem_eq_true_of_mem hm)
        have hstep : extractFold reOk ((k, h) :: rest) tbl cache =
            extractFold reOk rest (alset tbl (k.drop 1) h) (cache ++ [k.drop 1]) := by
          simp [extractFold, hst, hcm, hok]
        have hOK2 : ∀ e ∈ rest, pyStartsWith e.1 "~" = true →
            (cache ++ [k.drop 1]).contains (e.1.drop 1) = true ∨ reOk (e.1.drop 1) = true := by
          intro e he hte
          rcases hOK e (List.mem_cons_of_mem _ he) hte with h1 | h1
          · exact Or.inl (List.elem_eq_true_of_mem (by simp [List.mem_of_elem_eq_true h1]))
          · exact Or.inr h1
        rw [hstep, ih (alset tbl (k.drop 1) h) (cache ++ [k.drop 1]) hOK2 hNDrest htbl2]
        rw [alset_absent tbl (k.drop 1) h habs]
        simp
    · have hst2 : pyStartsWith k "~" = false := Bool.not_eq_true _ ▸ (by simpa using hst)
      have hfm1 : (((k, h) : String × J) :: rest).filterMap
          (fun e => if pyStartsWith e.1 "~" = true then some (e.1.drop 1) else none) =
          rest.filterMap
            (fun e => if pyStartsWith e.1 "~" = true then some (e.1.drop 1) else none) := by
        simp [hst2]
      have hfm2 : (((k, h) : String × J) :: rest).filterMap
          (fun e => if pyStartsWith e.1 "~" = true then some (e.1.drop 1, e.2) else none) =
          rest.filterMap
            (fun e => if pyStartsWith e.1 "~" = true then some (e.1.drop 1, e.2) else none) := by
        simp [hst2]
      have hstep : extractFold reOk ((k, h) :: rest) tbl cache =
          extractFold reOk rest tbl cache := by
        simp [extractFold, hst2]
      rw [hfm1] at hND hdisj
      rw [hfm2, hstep]
      exact ih tbl cache (fun e he hte => hOK e (List.mem_cons_of_mem _ he) hte) hND hdisj

/-- Counterexample to Claim C4 as stated: when the full-path key is
present with a `null` value, `handlers.get(full, handlers.get(path))`
returns the stored `None` and the query-stripped lookup is never
consulted — the regex table is scanned even though the stripped-path
literal holds a non-`null` handler that the claimed order would select. -/
theorem c4_counterexample :
    resolve_path_handler ⟨fun _ _ => true, fun _ _ s => s, fun _ => none, fun _ => none⟩
      [("/a?x=1", .null), ("/a", .num 5)] [("a", .num 9)] "/a?x=1" = some (.num 9) ∧
    alget [("/a?x=1", .null), ("/a", .num 5)] (stripQuery "/a?x=1") = some (.num 5) ∧
    (J.num 5 ≠ .null) ∧ (J.num 9 ≠ J.num 5) :=
  ⟨by decide, by decide, by decide, by decide⟩

/-- Claim C4 (amended): handler resolution looks up the handlers map by the
full request path (query string included) first; when that key is present
its stored value is taken even if `null`, in which case the query-stripped
lookup is SKIPPED — only when the full-path key is absent is the stripped
path consulted.  A `null` result of this literal phase (stored or from a
miss) sends resolution to the compiled regex table, taking the first
pattern in source order whose search hits the full path; when nothing hits
the resolution yields `none` — even when a non-`null` stripped-path literal
exists under a `null` full-path entry.  The regex table itself, built by
`extract_regex_paths` from compilable and duplicate-free tilde patterns,
lists exactly the tilde entries in source-JSON insertion order. -/
theorem c4_resolution_order (ext : Ext) (handlers : Obj) (reH : List (String × J))
    (fullPath : String) :
    (∀ v, alget handlers fullPath = some v → v ≠ .null →
      resolve_path_handler ext handlers reH fullPath = some v) ∧
    (∀ v, alget handlers fullPath = none →
      alget handlers (stripQuery fullPath) = some v → v ≠ .null →
      resolve_path_handler ext handlers reH fullPath = some v) ∧
    (∀ v2, alget handlers fullPath = some .null →
      alget handlers (stripQuery fullPath) = some v2 →
      (∀ e ∈ reH, ext.reSearch e.1 fullPath = false) →
      resolve_path_handler ext handlers reH fullPath = none) ∧
    ((alget handlers fullPath).getD ((alget handlers (stripQuery fullPath)).getD .null) = .null →
      ∀ pre e post, reH = pre ++ e :: post →
        (∀ e2 ∈ pre, ext.reSearch e2.1 fullPath = false) →
        ext.reSearch e.1 fullPath = true → e.2 ≠ .null →
        resolve_path_handler ext handlers reH fullPath = some e.2) ∧
    ((alget handlers fullPath).getD ((alget handlers (stripQuery fullPath)).getD .null) = .null →
      (∀ e ∈ reH, ext.reSearch e.1 fullPath = false) →
      resolve_path_handler ext handlers reH fullPath = none) ∧
    (∀ (reOk : String → Bool) (kvs : List (String × J)) (cache : List String),
      (∀ e ∈ kvs, pyStartsWith e.1 "~" = true →
        cache.contains (e.1.drop 1) = true ∨ reOk (e.1.drop 1) = true) →
      (kvs.filterMap (fun e => if pyStartsWith e.1 "~" = true then some (e.1.drop 1) else none)).Nodup →
      ∃ cache2, extract_regex_paths reOk (some (.obj kvs)) cache = some
        (kvs.filterMap (fun e => if pyStartsWith e.1 "~" = true then some (e.1.drop 1, e.2) else none),
         cache2)) := by
  refine ⟨?_, ?_, ?_, ?_, ?_, ?_⟩
  · intro v hget hnn
    unfold resolve_path_handler
    simp only []
    rw [hget]
    simp only [Option.getD_some]
    rw [if_neg hnn, if_neg hnn]
  · intro v hfull hstrip hnn
    unfold resolve_path_handler
    simp only []
    rw [hfull, hstrip]
    simp only [Option.getD_none, Option.getD_some]
    rw [if_neg hnn, if_neg hnn]
  · intro v2 hfull hstrip hall
    unfold resolve_path_handler
    simp only []
    rw [hfull]
    simp only [Option.getD_some]
    rw [List.find?_eq_none.mpr (fun x hx => by simp [hall x hx])]
    simp
  · intro hnull pre e post hre hpre he hnn
    unfold resolve_path_handler
    simp only []
    rw [hnull, if_pos rfl, hre,
      find_first_append (fun e2 => ext.reSearch e2.1 fullPath) pre e post hpre he]
    simp only []
    rw [if_neg hnn]
  · intro hnull hall
    unfold resolve_path_handler
    simp only []
    rw [hnull, if_pos rfl,
      List.find?_eq_none.mpr (fun x hx => by simp [hall x hx])]
    simp
  · intro reOk kvs cache hOK hND
    refine ⟨(extractFold reOk kvs [] cache).2, ?_⟩
    unfold extract_regex_paths
    cases kvs with
    | nil => simp [truthy, extractFold]
    | cons a rest =>
      simp only []
      rw [if_neg (by simp [truthy])]
      congr 1
      have hfst := extractFold_first reOk (a :: rest) [] cache hOK hND (by simp)
      exact Prod.ext (by simpa using hfst) rfl

/-- Witness for C4 (amended): a `null` full-path entry skips the non-`null`
stripped-path literal, and with no regex hit the resolution is `none`. -/
theorem c4_witness :
    resolve_path_handler ext0 [("/a?x=1", .null), ("/a", .num 5)] [] "/a?x=1" = none :=
  (c4_resolution_order ext0 [("/a?x=1", .null), ("/a", .num 5)] [] "/a?x=1").2.2.1
    (.num 5) (by decide) (by decide) (by decide)

end Moxy
